import Mathlib

/-!
Verification of the websocks client hook factory (createWSHooks): a shallow
embedding of the query cache, value cache, recoverable websocket lifecycle,
and subscriber registry, together with proofs of the specified invariants.

The embedding models the client as an event-driven state machine: the state
holds the two caches, one record per load cycle (each call of load creates
one cycle, owning its deferred handle, subscriber list and sockets), and the
set of pending timers (reconnection timers and cleanup timers). Environment
events (socket open, message, error, close, timer firing, and the public
operations) drive a total step function; reachability is running the step
function from the initial empty state over an arbitrary event list.
-/

namespace Websocks

/-- Model of a decoded JSON value as delivered by parseJSON: the payload type
stored in the value cache. -/
inductive JSValue where
  | vNull
  | vUndef
  | vBool (b : Bool)
  | vNum (n : Int)
  | vStr (s : String)
  | vObj (fields : List (String × JSValue))
  | vArr (elems : List JSValue)

/-- JavaScript truthiness test: the values for which `if (!value)` takes the
empty branch in read. -/
def falsy : JSValue → Bool
  | .vNull => true
  | .vUndef => true
  | .vBool b => !b
  | .vNum n => n == 0
  | .vStr s => s == ""
  | .vObj _ => false
  | .vArr _ => false

/-- Association-list lookup, modelling Map.get. -/
def mlookup (k : String) : List (String × α) → Option α
  | [] => none
  | (k2, v) :: rest => if k2 = k then some v else mlookup k rest

/-- Association-list update, modelling Map.set: replaces the existing entry
for the key or appends a new one. -/
def mset (k : String) (v : α) : List (String × α) → List (String × α)
  | [] => [(k, v)]
  | (k2, v2) :: rest => if k2 = k then (k, v) :: rest else (k2, v2) :: mset k v rest

/-- Association-list removal, modelling Map.delete. -/
def mdel (k : String) : List (String × α) → List (String × α)
  | [] => []
  | (k2, v2) :: rest => if k2 = k then mdel k rest else (k2, v2) :: mdel k rest

/-- The test `typeof value === "object" && "error" in value` from read. -/
def errorPayload : JSValue → Bool
  | .vObj fs => (mlookup "error" fs).isSome
  | _ => false

/-- Model of JavaScript template-literal stringification for the payload
field interpolated into the read error message. -/
def jsToString : JSValue → String
  | .vNull => "null"
  | .vUndef => "undefined"
  | .vBool true => "true"
  | .vBool false => "false"
  | .vNum n => toString n
  | .vStr s => s
  | .vObj _ => "[object Object]"
  | .vArr _ => "[array]"

/-- Hexadecimal digit value, for percent decoding. -/
def hexVal (c : Char) : Option Nat :=
  if ('0' ≤ c ∧ c ≤ '9') then some (c.toNat - '0'.toNat)
  else if ('a' ≤ c ∧ c ≤ 'f') then some (c.toNat - 'a'.toNat + 10)
  else if ('A' ≤ c ∧ c ≤ 'F') then some (c.toNat - 'A'.toNat + 10)
  else none

/-- Percent decoding over a character list (ASCII model of the builtin the
read error message applies to the path). -/
def percentDec : List Char → List Char
  | '%' :: a :: b :: rest =>
    match hexVal a, hexVal b with
    | some x, some y => Char.ofNat (16 * x + y) :: percentDec rest
    | _, _ => '%' :: percentDec (a :: b :: rest)
  | c :: rest => c :: percentDec rest
  | [] => []

/-- Model of decodeURIComponent as used in the read error message. -/
def decodeURIComponent (s : String) : String := ⟨percentDec s.data⟩

/-- The detail interpolated as value.error in the read error message. -/
def errDetail : JSValue → String
  | .vObj fs =>
    match mlookup "error" fs with
    | some e => jsToString e
    | none => "undefined"
  | _ => "undefined"

/-- The error message built by read for an error payload. -/
def readErrMsg (p : String) (v : JSValue) : String :=
  "Error reading \"" ++ decodeURIComponent p ++ "\" - [" ++ errDetail v ++ "]"

/-- List indexing returning an Option, used for cycles and sockets. -/
def nth : List α → Nat → Option α
  | [], _ => none
  | a :: _, 0 => some a
  | _ :: l, n + 1 => nth l n

/-- In-place update of one index of a list. -/
def setNth : List α → Nat → α → List α
  | [], _, _ => []
  | _ :: l, 0, b => b :: l
  | a :: l, n + 1, b => a :: setNth l n b

/-- State of one deferred handle (the pending-result promise of a load
cycle). -/
inductive DefState where
  | pending
  | resolvedD
  | rejectedD
deriving DecidableEq

/-- deferred.resolve: settles a pending handle, no-op on a settled one. -/
def resolveD : DefState → DefState
  | .pending => .resolvedD
  | x => x

/-- deferred.reject: rejects a pending handle, no-op on a settled one. -/
def rejectD : DefState → DefState
  | .pending => .rejectedD
  | x => x

/-- Lifecycle state of one physical WebSocket object. A closed socket never
leaves the closed state. -/
inductive SockState where
  | connecting
  | opened
  | closing
  | closed
deriving DecidableEq

/-- One load cycle: the closure created by one effective call of load. It
owns the deferred handle, the subscriptions array, the sockets created by
its recoverable websocket (index 0 is the socket captured by the ws
variable), and the cleanupTimeoutId variable. -/
structure Cycle where
  path : String
  deferred : DefState
  subs : List Nat
  sockets : List SockState
  cleanupTimer : Option Nat
deriving DecidableEq

/-- What a pending timer will do when it fires. -/
inductive TimerKind where
  | reconnect (cycle sock : Nat)
  | cleanup (cycle : Nat)
deriving DecidableEq

/-- A timer scheduled with setTimeout and not yet fired or cleared. -/
structure PendingTimer where
  id : Nat
  kind : TimerKind
  delayMs : Nat
deriving DecidableEq

/-- The query cache record for a path: its deferred handle and subscribe
operation are those of the recorded load cycle, plus the lazilyRefetch
flag. -/
structure QueryEntry where
  cycle : Nat
  lazilyRefetch : Bool
deriving DecidableEq

/-- The whole client state of one createWSHooks instance. -/
structure ClientState where
  valueCache : List (String × JSValue)
  queryCache : List (String × QueryEntry)
  cycles : List Cycle
  timers : List PendingTimer
  issuedUnsubs : List (Nat × Nat)
  nextTimerId : Nat

/-- The empty state right after createWSHooks returns. -/
def init : ClientState :=
  { valueCache := [], queryCache := [], cycles := [], timers := [],
    issuedUnsubs := [], nextTimerId := 0 }

/-- Replace the record of cycle c. -/
def setCycle (s : ClientState) (c : Nat) (cy : Cycle) : ClientState :=
  { s with cycles := setNth s.cycles c cy }

/-- The body of load past the early return: creates the deferred, the
subscriptions array, the recoverable websocket (whose first socket starts
connecting), and installs the new query cache entry. -/
def startCycle (s : ClientState) (p : String) : ClientState :=
  { s with
    cycles := s.cycles ++
      [{ path := p, deferred := .pending, subs := [], sockets := [.connecting],
         cleanupTimer := none }],
    queryCache := mset p { cycle := s.cycles.length, lazilyRefetch := false } s.queryCache }

/-- load: returns unchanged when an entry exists with lazilyRefetch false;
otherwise runs the construction body (the intermediate set of the old entry
with lazilyRefetch false is overwritten by the final set in the same
synchronous body). -/
def load (s : ClientState) (p : String) : ClientState :=
  match mlookup p s.queryCache with
  | some q => if q.lazilyRefetch then startCycle s p else s
  | none => startCycle s p

/-- clearQuery: drops the cached value and flags an existing entry for lazy
refetch. It does not close any connection. -/
def clearQuery (s : ClientState) (p : String) : ClientState :=
  let s1 := { s with valueCache := mdel p s.valueCache }
  match mlookup p s1.queryCache with
  | some q =>
    { s1 with queryCache := mset p { q with lazilyRefetch := true } s1.queryCache }
  | none => s1

/-- The onClose callback of cycle c: on a deliberate closure the value cache
entry for the path is dropped and the query entry is flagged
lazilyRefetch. -/
def onClose (s : ClientState) (c : Nat) : ClientState :=
  match nth s.cycles c with
  | none => s
  | some cy =>
    match mlookup cy.path s.queryCache with
    | none => s
    | some q =>
      { s with
        valueCache := mdel cy.path s.valueCache,
        queryCache := mset cy.path { q with lazilyRefetch := true } s.queryCache }

/-- Delivery of the open event on socket i of cycle c (the handler sends the
path, which does not change client state). -/
def sockOpenEv (s : ClientState) (c i : Nat) : ClientState :=
  match nth s.cycles c with
  | none => s
  | some cy =>
    match nth cy.sockets i with
    | some .connecting => setCycle s c { cy with sockets := setNth cy.sockets i .opened }
    | _ => s

/-- Delivery of a message on socket i of cycle c: the onMessage callback
stores the decoded payload in the value cache, notifies the subscribers
(which does not change this state) and resolves the deferred. Only an open
socket delivers messages. -/
def sockMessageEv (s : ClientState) (c i : Nat) (d : JSValue) : ClientState :=
  match nth s.cycles c with
  | none => s
  | some cy =>
    match nth cy.sockets i with
    | some .opened =>
      { s with
        valueCache := mset cy.path d s.valueCache,
        cycles := setNth s.cycles c { cy with deferred := resolveD cy.deferred } }
    | _ => s

/-- Delivery of an error event on a live socket of cycle c: the onError
callback rejects the deferred. -/
def sockErrorEv (s : ClientState) (c i : Nat) : ClientState :=
  match nth s.cycles c with
  | none => s
  | some cy =>
    match nth cy.sockets i with
    | none => s
    | some st =>
      if st = .closed then s
      else setCycle s c { cy with deferred := rejectD cy.deferred }

/-- Delivery of the close event with the given code on socket i of cycle c:
the socket becomes closed; code 1006 schedules one reconnection timer with a
1000 ms delay, any other code runs the onClose callback. -/
def sockCloseEv (s : ClientState) (c i code : Nat) : ClientState :=
  match nth s.cycles c with
  | none => s
  | some cy =>
    match nth cy.sockets i with
    | none => s
    | some st =>
      if st = .closed then s
      else
        let s1 := setCycle s c { cy with sockets := setNth cy.sockets i .closed }
        if code = 1006 then
          { s1 with
            timers := s1.timers ++ [⟨s1.nextTimerId, .reconnect c i, 1000⟩],
            nextTimerId := s1.nextTimerId + 1 }
        else onClose s1 c

/-- ws.close() on the handle of cycle c: the ws variable always refers to
the socket created by the initial recreate call (index 0), because the
recreate calls made by reconnection timers never reassign it. Closing a
connecting or open socket moves it to closing; otherwise it is a no-op. -/
def wsClose (s : ClientState) (c : Nat) : ClientState :=
  match nth s.cycles c with
  | none => s
  | some cy =>
    match nth cy.sockets 0 with
    | some .connecting => setCycle s c { cy with sockets := setNth cy.sockets 0 .closing }
    | some .opened => setCycle s c { cy with sockets := setNth cy.sockets 0 .closing }
    | _ => s

/-- Firing of the pending timer with the given id. A reconnection timer
re-checks that the socket captured in its closure is closed and then runs
recreate, appending a fresh connecting socket to the same cycle. A cleanup
timer closes the websocket handle if the subscriptions array is empty. -/
def fireTimer (s : ClientState) (tid : Nat) : ClientState :=
  match s.timers.find? (fun t => t.id == tid) with
  | none => s
  | some t =>
    let s1 := { s with timers := s.timers.filter (fun u => !(u.id == tid)) }
    match t.kind with
    | .reconnect c i =>
      match nth s1.cycles c with
      | none => s1
      | some cy =>
        match nth cy.sockets i with
        | some SockState.closed =>
          setCycle s1 c { cy with sockets := cy.sockets ++ [SockState.connecting] }
        | _ => s1
    | .cleanup c =>
      match nth s1.cycles c with
      | none => s1
      | some cy => if cy.subs = [] then wsClose s1 c else s1

/-- The result of a call to read: either a thrown usage error, a thrown
pending promise (suspension, identified by the owning cycle of the handle),
the null placeholder, a thrown read error, or a returned value. -/
inductive ReadResult where
  | usageError (msg : String)
  | suspended (cycle : Nat)
  | nullValue
  | readError (msg : String)
  | value (v : JSValue)

/-- read: requires an entry, reloads when stale, then inspects the cached
value captured through the entry read before the reload. -/
def read (s : ClientState) (p : String) (suspend : Bool) : ClientState × ReadResult :=
  match mlookup p s.queryCache with
  | none => (s, .usageError ("invariant: call load() first for " ++ p))
  | some q =>
    let s1 := if q.lazilyRefetch then load s p else s
    match mlookup p s1.valueCache with
    | none => if suspend then (s1, .suspended q.cycle) else (s1, .nullValue)
    | some v =>
      if falsy v then
        if suspend then (s1, .suspended q.cycle) else (s1, .nullValue)
      else if errorPayload v then (s1, .readError (readErrMsg p v))
      else (s1, .value v)

/-- subscribe: requires an entry, then delegates to the subscribe closure of
the recorded cycle, which pushes the listener and returns an unsubscribe
closure (recorded in issuedUnsubs). The second component is the thrown
message, if any. -/
def subscribeOp (s : ClientState) (p : String) (l : Nat) : ClientState × Option String :=
  match mlookup p s.queryCache with
  | none => (s, some ("invariant: call load() first for " ++ p))
  | some q =>
    match nth s.cycles q.cycle with
    | none => (s, none)
    | some cy =>
      ({ setCycle s q.cycle { cy with subs := cy.subs ++ [l] } with
          issuedUnsubs := s.issuedUnsubs ++ [(q.cycle, l)] }, none)

/-- The splice(indexOf(x), 1) combination: removes the first occurrence when
present, otherwise (indexOf is -1) removes the last element. -/
def removeFirst (l : Nat) : List Nat → List Nat
  | [] => []
  | x :: xs => if x = l then xs else x :: removeFirst l xs

/-- splice(-1, 1): drops the last element of a non-empty list. -/
def dropLastJS : List Nat → List Nat
  | [] => []
  | [_] => []
  | x :: xs => x :: dropLastJS xs

/-- The listener removal performed by the unsubscribe closure. -/
def removeListener (l : Nat) (subs : List Nat) : List Nat :=
  if l ∈ subs then removeFirst l subs else dropLastJS subs

/-- Invocation of an unsubscribe closure issued for listener l of cycle c:
clears the previously recorded cleanup timeout, removes the listener, and
always schedules a fresh cleanup timer with a 9999 ms delay. -/
def unsubscribeOp (s : ClientState) (c l : Nat) : ClientState :=
  if (c, l) ∈ s.issuedUnsubs then
    match nth s.cycles c with
    | none => s
    | some cy =>
      let timers1 :=
        match cy.cleanupTimer with
        | none => s.timers
        | some tid => s.timers.filter (fun u => !(u.id == tid))
      { s with
        cycles := setNth s.cycles c
          { cy with subs := removeListener l cy.subs, cleanupTimer := some s.nextTimerId },
        timers := timers1 ++ [⟨s.nextTimerId, .cleanup c, 9999⟩],
        nextTimerId := s.nextTimerId + 1 }
  else s

/-- The environment events that drive the client state. -/
inductive Event where
  | evLoad (p : String)
  | evRead (p : String) (suspend : Bool)
  | evClearQuery (p : String)
  | evSubscribe (p : String) (l : Nat)
  | evUnsubscribe (c l : Nat)
  | evSockOpen (c i : Nat)
  | evSockMessage (c i : Nat) (d : JSValue)
  | evSockError (c i : Nat)
  | evSockClose (c i code : Nat)
  | evTimerFire (tid : Nat)

/-- One step of the client state machine. -/
def step (s : ClientState) : Event → ClientState
  | .evLoad p => load s p
  | .evRead p b => (read s p b).1
  | .evClearQuery p => clearQuery s p
  | .evSubscribe p l => (subscribeOp s p l).1
  | .evUnsubscribe c l => unsubscribeOp s c l
  | .evSockOpen c i => sockOpenEv s c i
  | .evSockMessage c i d => sockMessageEv s c i d
  | .evSockError c i => sockErrorEv s c i
  | .evSockClose c i code => sockCloseEv s c i code
  | .evTimerFire tid => fireTimer s tid

/-- Running the machine over an event list. -/
def run (s : ClientState) : List Event → ClientState
  | [] => s
  | e :: es => run (step s e) es

/-- A state is reachable when some event list produces it from the empty
state. -/
def Reachable (s : ClientState) : Prop := ∃ es, run init es = s

/-- Whether an event is a clearQuery call. -/
def isClearQuery : Event → Bool
  | .evClearQuery _ => true
  | _ => false

/-- Event lists in which clearQuery is never called. -/
def cqFree (es : List Event) : Prop := ∀ e ∈ es, isClearQuery e = false

/-- Executable check for cqFree, used to discharge it on concrete traces. -/
def cqFreeB (es : List Event) : Bool := es.all (fun e => !isClearQuery e)

/-- Number of sockets of a cycle that are not fully closed. -/
def countLive : List SockState → Nat
  | [] => 0
  | st :: l => (if st = .closed then 0 else 1) + countLive l

/-- Live sockets of cycle c. -/
def liveAt (s : ClientState) (c : Nat) : Nat :=
  match nth s.cycles c with
  | some cy => countLive cy.sockets
  | none => 0

/-- Whether a timer kind is a reconnection timer for cycle c. -/
def isReconFor (c : Nat) : TimerKind → Bool
  | .reconnect c2 _ => c2 == c
  | .cleanup _ => false

/-- Pending reconnection timers for cycle c. -/
def countRecon (c : Nat) : List PendingTimer → Nat
  | [] => 0
  | t :: l => (if isReconFor c t.kind then 1 else 0) + countRecon c l

/-- The connection budget of cycle c: its live sockets plus its pending
reconnection timers. The recoverable websocket keeps this at most one. -/
def cycleTokens (s : ClientState) (c : Nat) : Nat :=
  liveAt s c + countRecon c s.timers

/-- The path of cycle c, when the cycle exists. -/
def cyclePath (s : ClientState) (c : Nat) : Option String :=
  (nth s.cycles c).map Cycle.path

section MapLemmas

variable {α : Type}

theorem mlookup_mset_self (k : String) (v : α) (m : List (String × α)) :
    mlookup k (mset k v m) = some v := by
  induction m with
  | nil => simp [mset, mlookup]
  | cons h t ih =>
    obtain ⟨k2, v2⟩ := h
    by_cases hk : k2 = k
    · subst hk; simp [mset, mlookup]
    · simp [mset, mlookup, hk, ih]

theorem mlookup_mset_ne (k k2 : String) (v : α) (m : List (String × α)) (h : k2 ≠ k) :
    mlookup k (mset k2 v m) = mlookup k m := by
  induction m with
  | nil => simp [mset, mlookup, h]
  | cons hd t ih =>
    obtain ⟨k3, v3⟩ := hd
    by_cases hk : k3 = k2
    · subst hk; simp [mset, mlookup, h]
    · simp [mset, mlookup, hk, ih]

theorem mlookup_mdel_self (k : String) (m : List (String × α)) :
    mlookup k (mdel k m) = none := by
  induction m with
  | nil => simp [mdel, mlookup]
  | cons hd t ih =>
    obtain ⟨k3, v3⟩ := hd
    by_cases hk : k3 = k
    · subst hk; simp [mdel, mlookup, ih]
    · simp [mdel, mlookup, hk, ih]

theorem mlookup_mdel_ne (k k2 : String) (m : List (String × α)) (h : k2 ≠ k) :
    mlookup k (mdel k2 m) = mlookup k m := by
  induction m with
  | nil => simp [mdel, mlookup]
  | cons hd t ih =>
    obtain ⟨k3, v3⟩ := hd
    by_cases hk : k3 = k2
    · subst hk; simp [mdel, mlookup, h, ih]
    · by_cases hk2 : k3 = k
      · subst hk2; simp [mdel, mlookup, hk]
      · simp [mdel, mlookup, hk, hk2, ih]

end MapLemmas

section NthLemmas

variable {α : Type}

theorem nth_lt_length {l : List α} {n : Nat} {a : α} (h : nth l n = some a) :
    n < l.length := by
  induction l generalizing n with
  | nil => simp [nth] at h
  | cons hd t ih =>
    cases n with
    | zero => simp
    | succ m => simpa using Nat.succ_lt_succ (ih (by simpa [nth] using h))

theorem nth_append_left {l l2 : List α} {n : Nat} (h : n < l.length) :
    nth (l ++ l2) n = nth l n := by
  induction l generalizing n with
  | nil => simp at h
  | cons hd t ih =>
    cases n with
    | zero => simp [nth]
    | succ m => simpa [nth] using ih (by simpa using h)

theorem nth_append_length (l : List α) (a : α) :
    nth (l ++ [a]) l.length = some a := by
  induction l with
  | nil => simp [nth]
  | cons hd t ih => simpa [nth] using ih

theorem nth_append_ge {l l2 : List α} {n : Nat} (h : l.length ≤ n) :
    nth (l ++ l2) n = nth l2 (n - l.length) := by
  induction l generalizing n with
  | nil => simp
  | cons hd t ih =>
    cases n with
    | zero => simp at h
    | succ m => simpa [nth, Nat.succ_sub_succ] using ih (Nat.le_of_succ_le_succ h)

theorem nth_setNth_self {l : List α} {n : Nat} (h : n < l.length) (b : α) :
    nth (setNth l n b) n = some b := by
  induction l generalizing n with
  | nil => simp at h
  | cons hd t ih =>
    cases n with
    | zero => simp [setNth, nth]
    | succ m => simpa [setNth, nth] using ih (by simpa using h)

theorem nth_setNth_ne (l : List α) {n m : Nat} (h : n ≠ m) (b : α) :
    nth (setNth l n b) m = nth l m := by
  induction l generalizing n m with
  | nil => simp [setNth]
  | cons hd t ih =>
    cases n with
    | zero =>
      cases m with
      | zero => exact absurd rfl h
      | succ k => simp [setNth, nth]
    | succ j =>
      cases m with
      | zero => simp [setNth, nth]
      | succ k => simpa [setNth, nth] using ih (fun hc => h (by simp [hc]))

theorem length_setNth (l : List α) (n : Nat) (b : α) :
    (setNth l n b).length = l.length := by
  induction l generalizing n with
  | nil => simp [setNth]
  | cons hd t ih =>
    cases n with
    | zero => simp [setNth]
    | succ m => simpa [setNth] using ih m

end NthLemmas

theorem cqFree_of_all {es : List Event} (h : cqFreeB es = true) : cqFree es := by
  intro e he
  have := List.all_eq_true.mp h e he
  simpa using this

section CountLemmas

theorem countLive_append (l l2 : List SockState) :
    countLive (l ++ l2) = countLive l + countLive l2 := by
  induction l with
  | nil => simp [countLive]
  | cons hd t ih => simp [countLive, ih]; omega

theorem countLive_setNth {l : List SockState} {i : Nat} {st : SockState}
    (h : nth l i = some st) (st2 : SockState) :
    countLive (setNth l i st2) + (if st = .closed then 0 else 1) =
      countLive l + (if st2 = .closed then 0 else 1) := by
  induction l generalizing i with
  | nil => simp [nth] at h
  | cons hd t ih =>
    cases i with
    | zero =>
      simp [nth] at h
      subst h
      simp [setNth, countLive]
      omega
    | succ m =>
      simp [nth] at h
      have := ih h
      simp [setNth, countLive]
      omega

theorem countLive_pos {l : List SockState} {i : Nat} {st : SockState}
    (h : nth l i = some st) (hne : st ≠ .closed) : 1 ≤ countLive l := by
  induction l generalizing i with
  | nil => simp [nth] at h
  | cons hd t ih =>
    cases i with
    | zero =>
      simp [nth] at h
      subst h
      simp [countLive, hne]
    | succ m =>
      have := ih (i := m) (by simpa [nth] using h)
      simp [countLive]
      omega

theorem countLive_unique {l : List SockState} {i j : Nat} {st st2 : SockState}
    (hle : countLive l ≤ 1) (hi : nth l i = some st) (hsti : st ≠ .closed)
    (hj : nth l j = some st2) (hstj : st2 ≠ .closed) : i = j := by
  induction l generalizing i j with
  | nil => simp [nth] at hi
  | cons hd t ih =>
    cases i with
    | zero =>
      cases j with
      | zero => rfl
      | succ m =>
        simp [nth] at hi
        subst hi
        have h1 : 1 ≤ countLive t := countLive_pos (by simpa [nth] using hj) hstj
        simp [countLive, hsti] at hle
        omega
    | succ m =>
      cases j with
      | zero =>
        simp [nth] at hj
        subst hj
        have h1 : 1 ≤ countLive t := countLive_pos (by simpa [nth] using hi) hsti
        simp [countLive, hstj] at hle
        omega
      | succ k =>
        have hle2 : countLive t ≤ 1 := by simp [countLive] at hle; omega
        have := ih hle2 (by simpa [nth] using hi) (by simpa [nth] using hj)
        simp [this]

theorem countRecon_append (c : Nat) (l l2 : List PendingTimer) :
    countRecon c (l ++ l2) = countRecon c l + countRecon c l2 := by
  induction l with
  | nil => simp [countRecon]
  | cons hd t ih => simp [countRecon, ih]; omega

theorem countRecon_filter_le (c : Nat) (p : PendingTimer → Bool) (l : List PendingTimer) :
    countRecon c (l.filter p) ≤ countRecon c l := by
  induction l with
  | nil => simp [countRecon]
  | cons hd t ih =>
    by_cases hp : p hd
    · simp [List.filter, hp, countRecon]; omega
    · simp [List.filter, hp, countRecon]; omega

theorem countRecon_pos_of_mem {c : Nat} {t : PendingTimer} {l : List PendingTimer}
    (hmem : t ∈ l) (hk : isReconFor c t.kind = true) : 1 ≤ countRecon c l := by
  induction l with
  | nil => simp at hmem
  | cons hd tl ih =>
    rcases List.mem_cons.mp hmem with h | h
    · subst h; simp [countRecon, hk]
    · have := ih h
      simp [countRecon]
      omega

theorem countRecon_eq_zero {c : Nat} {l : List PendingTimer}
    (h : ∀ t ∈ l, isReconFor c t.kind = false) : countRecon c l = 0 := by
  induction l with
  | nil => simp [countRecon]
  | cons hd tl ih =>
    have h1 := h hd (by simp)
    simp [countRecon, h1]
    exact ih fun t ht => h t (by simp [ht])

theorem countRecon_two_of_two_mem {c : Nat} {t u : PendingTimer} {l : List PendingTimer}
    (ht : t ∈ l) (hu : u ∈ l) (hne : t ≠ u)
    (hkt : isReconFor c t.kind = true) (hku : isReconFor c u.kind = true) :
    2 ≤ countRecon c l := by
  induction l with
  | nil => simp at ht
  | cons hd tl ih =>
    rcases List.mem_cons.mp ht with h1 | h1
    · subst h1
      have hu2 : u ∈ tl := by
        rcases List.mem_cons.mp hu with h2 | h2
        · exact absurd h2.symm hne
        · exact h2
      have := countRecon_pos_of_mem hu2 hku
      simp [countRecon, hkt]
      omega
    · rcases List.mem_cons.mp hu with h2 | h2
      · subst h2
        have := countRecon_pos_of_mem h1 hkt
        simp [countRecon, hku]
        omega
      · have := ih h1 h2
        simp [countRecon]
        omega

theorem countRecon_filter_out {c : Nat} {t : PendingTimer} {l : List PendingTimer}
    (hle : countRecon c l ≤ 1) (hmem : t ∈ l) (hk : isReconFor c t.kind = true) :
    countRecon c (l.filter (fun u => !(u.id == t.id))) = 0 := by
  apply countRecon_eq_zero
  intro u hu
  have hmem2 := List.mem_filter.mp hu
  by_cases hqu : isReconFor c u.kind
  · exfalso
    have hne : t ≠ u := by
      intro heq
      subst heq
      simp at hmem2
    have := countRecon_two_of_two_mem hmem hmem2.1 hne hk hqu
    omega
  · simpa using hqu

end CountLemmas

theorem nth_eq_none_of_ge {α : Type} {l : List α} {n : Nat} (h : l.length ≤ n) :
    nth l n = none := by
  induction l generalizing n with
  | nil => simp [nth]
  | cons hd t ih =>
    cases n with
    | zero => simp at h
    | succ m => simpa [nth] using ih (Nat.le_of_succ_le_succ h)

/-- Every pending reconnection timer points at an existing cycle. -/
def GoodT (s : ClientState) : Prop :=
  ∀ t ∈ s.timers, ∀ c i, t.kind = .reconnect c i → c < s.cycles.length

/-- The recoverable-websocket budget invariant: each cycle has at most one
live socket or pending reconnection timer in total, and timers are
well-formed. It holds in every reachable state. -/
def InvA (s : ClientState) : Prop :=
  GoodT s ∧ ∀ c, cycleTokens s c ≤ 1

section InvAPreservation

theorem cycleTokens_congr {s s2 : ClientState}
    (hs : ∀ c, (nth s2.cycles c).map Cycle.sockets = (nth s.cycles c).map Cycle.sockets)
    (ht : s2.timers = s.timers) (c : Nat) : cycleTokens s2 c = cycleTokens s c := by
  have hl : liveAt s2 c = liveAt s c := by
    have := hs c
    unfold liveAt
    cases h2 : nth s2.cycles c with
    | none => cases h3 : nth s.cycles c with
      | none => rfl
      | some cy => rw [h2, h3] at this; simp at this
    | some cy2 => cases h3 : nth s.cycles c with
      | none => rw [h2, h3] at this; simp at this
      | some cy =>
        rw [h2, h3] at this
        simp at this
        simp [this]
  simp [cycleTokens, hl, ht]

theorem invA_congr {s s2 : ClientState}
    (hs : ∀ c, (nth s2.cycles c).map Cycle.sockets = (nth s.cycles c).map Cycle.sockets)
    (hlen : s2.cycles.length = s.cycles.length)
    (ht : s2.timers = s.timers) (h : InvA s) : InvA s2 := by
  refine ⟨?_, ?_⟩
  · intro t htm c i hk
    rw [hlen]
    exact h.1 t (ht ▸ htm) c i hk
  · intro c
    rw [cycleTokens_congr hs ht c]
    exact h.2 c

theorem liveAt_setCycle_of_countLive {s : ClientState} {c : Nat} {cy : Cycle}
    (h : nth s.cycles c = some cy) (cy2 : Cycle)
    (hcl : countLive cy2.sockets = countLive cy.sockets) (c2 : Nat) :
    liveAt (setCycle s c cy2) c2 = liveAt s c2 := by
  by_cases hc : c2 = c
  · subst hc
    simp [liveAt, setCycle, nth_setNth_self (nth_lt_length h), h, hcl]
  · simp [liveAt, setCycle, nth_setNth_ne _ (fun he => hc he.symm)]

theorem sockets_setCycle_of_sockets {s : ClientState} {c : Nat} {cy : Cycle}
    (h : nth s.cycles c = some cy) (cy2 : Cycle)
    (hcl : cy2.sockets = cy.sockets) (c2 : Nat) :
    (nth (setCycle s c cy2).cycles c2).map Cycle.sockets =
      (nth s.cycles c2).map Cycle.sockets := by
  by_cases hc : c2 = c
  · subst hc
    simp [setCycle, nth_setNth_self (nth_lt_length h), h, hcl]
  · simp [setCycle, nth_setNth_ne _ (fun he => hc he.symm)]

theorem invA_startCycle {s : ClientState} (h : InvA s) (p : String) :
    InvA (startCycle s p) := by
  obtain ⟨hg, hb⟩ := h
  constructor
  · intro t htm c i hk
    have := hg t htm c i hk
    simp [startCycle]
    omega
  · intro c
    by_cases hlt : c < s.cycles.length
    · have : cycleTokens (startCycle s p) c = cycleTokens s c := by
        simp [cycleTokens, startCycle, liveAt, nth_append_left hlt]
      rw [this]; exact hb c
    · by_cases heq : c = s.cycles.length
      · subst heq
        have h0 : countRecon s.cycles.length s.timers = 0 := by
          apply countRecon_eq_zero
          intro t htm
          cases hk : t.kind with
          | reconnect c2 i =>
            have := hg t htm c2 i hk
            simp [isReconFor]
            omega
          | cleanup c2 => simp [isReconFor]
        simp [cycleTokens, startCycle, liveAt, nth_append_length, countLive, h0]
      · have hge : s.cycles.length ≤ c := by omega
        have hnone : nth (startCycle s p).cycles c = none := by
          apply nth_eq_none_of_ge
          simp [startCycle]
          omega
        simp [cycleTokens, startCycle, liveAt, hnone] at *
        have h0 : countRecon c s.timers = 0 := by
          apply countRecon_eq_zero
          intro t htm
          cases hk : t.kind with
          | reconnect c2 i =>
            have := hg t htm c2 i hk
            simp [isReconFor]
            omega
          | cleanup c2 => simp [isReconFor]
        simp [h0]

theorem invA_load {s : ClientState} (h : InvA s) (p : String) : InvA (load s p) := by
  unfold load
  cases mlookup p s.queryCache with
  | none => exact invA_startCycle h p
  | some q =>
    by_cases hl : q.lazilyRefetch
    · simpa [hl] using invA_startCycle h p
    · simpa [hl] using h

theorem invA_read {s : ClientState} (h : InvA s) (p : String) (b : Bool) :
    InvA (read s p b).1 := by
  unfold read
  cases mlookup p s.queryCache with
  | none => exact h
  | some q =>
    by_cases hl : q.lazilyRefetch
    · cases hv : mlookup p (load s p).valueCache with
      | none =>
        cases b <;> simp [hl, hv] <;> exact invA_load h p
      | some v =>
        by_cases hf : falsy v
        · cases b <;> simp [hl, hv, hf] <;> exact invA_load h p
        · by_cases he : errorPayload v
          · simp [hl, hv, hf, he]; exact invA_load h p
          · simp [hl, hv, hf, he]; exact invA_load h p
    · cases hv : mlookup p s.valueCache with
      | none =>
        cases b <;> simp [hl, hv] <;> exact h
      | some v =>
        by_cases hf : falsy v
        · cases b <;> simp [hl, hv, hf] <;> exact h
        · by_cases he : errorPayload v
          · simp [hl, hv, hf, he]; exact h
          · simp [hl, hv, hf, he]; exact h

theorem clearQuery_skel (s : ClientState) (p : String) :
    (clearQuery s p).cycles = s.cycles ∧ (clearQuery s p).timers = s.timers := by
  cases h : mlookup p s.queryCache <;> simp [clearQuery, h]

theorem invA_clearQuery {s : ClientState} (h : InvA s) (p : String) :
    InvA (clearQuery s p) := by
  exact invA_congr (fun c => by rw [(clearQuery_skel s p).1])
    (by rw [(clearQuery_skel s p).1]) (clearQuery_skel s p).2 h

theorem invA_subscribe {s : ClientState} (h : InvA s) (p : String) (l : Nat) :
    InvA (subscribeOp s p l).1 := by
  cases hq : mlookup p s.queryCache with
  | none => simpa [subscribeOp, hq] using h
  | some q =>
    cases hc : nth s.cycles q.cycle with
    | none => simpa [subscribeOp, hq, hc] using h
    | some cy =>
      refine invA_congr ?_ ?_ ?_ h
      · intro c2
        have := sockets_setCycle_of_sockets hc
          ({ cy with subs := cy.subs ++ [l] }) rfl c2
        simpa [subscribeOp, hq, hc] using this
      · simp [subscribeOp, hq, hc, setCycle, length_setNth]
      · simp [subscribeOp, hq, hc, setCycle]

theorem liveAt_setNth_of_countLive {s : ClientState} {c : Nat} {cy : Cycle}
    (hc : nth s.cycles c = some cy) (cy2 : Cycle)
    (hcl : countLive cy2.sockets = countLive cy.sockets)
    (c2 : Nat) (rest : List Cycle) (hrest : rest = setNth s.cycles c cy2) :
    countLive ((nth rest c2).elim [] Cycle.sockets) =
      countLive ((nth s.cycles c2).elim [] Cycle.sockets) := by
  subst hrest
  by_cases hcc : c2 = c
  · subst hcc
    simp [nth_setNth_self (nth_lt_length hc), hc, hcl]
  · simp [nth_setNth_ne _ (fun he => hcc he.symm)]

theorem liveAt_as_elim (s : ClientState) (c : Nat) :
    liveAt s c = countLive ((nth s.cycles c).elim [] Cycle.sockets) := by
  unfold liveAt
  cases nth s.cycles c <;> simp [countLive]

theorem invA_unsub_core {s : ClientState} {c : Nat} {cy : Cycle}
    (hc : nth s.cycles c = some cy) (cy2 : Cycle)
    (hsock : cy2.sockets = cy.sockets) {T : List PendingTimer}
    (hT : ∀ c2, countRecon c2 T ≤ countRecon c2 s.timers)
    (hTm : ∀ t ∈ T, t ∈ s.timers)
    (h : InvA s) (nid d n2 : Nat) :
    InvA { s with cycles := setNth s.cycles c cy2,
                  timers := T ++ [⟨nid, .cleanup c, d⟩],
                  nextTimerId := n2 } := by
  obtain ⟨hg, hb⟩ := h
  constructor
  · intro t htm c2 i hk
    simp only [List.mem_append] at htm
    rcases htm with htm | htm
    · simpa [length_setNth] using hg t (hTm t htm) c2 i hk
    · simp at htm
      subst htm
      simp at hk
  · intro c2
    have hl2 : liveAt { s with cycles := setNth s.cycles c cy2,
                               timers := T ++ [⟨nid, .cleanup c, d⟩],
                               nextTimerId := n2 } c2 = liveAt s c2 := by
      rw [liveAt_as_elim, liveAt_as_elim]
      exact liveAt_setNth_of_countLive hc cy2 (by rw [hsock]) c2 _ rfl
    have hr2 : countRecon c2 (T ++ [⟨nid, .cleanup c, d⟩]) ≤ countRecon c2 s.timers := by
      rw [countRecon_append]
      have := hT c2
      simp [countRecon, isReconFor]
      omega
    have := hb c2
    simp only [cycleTokens] at *
    rw [hl2]
    omega

theorem invA_unsubscribe {s : ClientState} (h : InvA s) (c l : Nat) :
    InvA (unsubscribeOp s c l) := by
  by_cases hm : (c, l) ∈ s.issuedUnsubs
  · cases hc : nth s.cycles c with
    | none => simpa [unsubscribeOp, hm, hc] using h
    | some cy =>
      cases hct : cy.cleanupTimer with
      | none =>
        have := invA_unsub_core hc
          ({ cy with subs := removeListener l cy.subs,
                            cleanupTimer := some s.nextTimerId }) rfl
          (T := s.timers) (fun c2 => Nat.le_refl _) (fun t ht => ht) h
          s.nextTimerId 9999 (s.nextTimerId + 1)
        simpa [unsubscribeOp, hm, hc, hct] using this
      | some tid =>
        have := invA_unsub_core hc
          ({ cy with subs := removeListener l cy.subs,
                            cleanupTimer := some s.nextTimerId }) rfl
          (T := s.timers.filter (fun u => !(u.id == tid)))
          (fun c2 => countRecon_filter_le c2 _ s.timers)
          (fun t ht => (List.mem_filter.mp ht).1) h
          s.nextTimerId 9999 (s.nextTimerId + 1)
        simpa [unsubscribeOp, hm, hc, hct] using this
  · simpa [unsubscribeOp, hm] using h

theorem sockets_setNth_of_sockets {l : List Cycle} {c : Nat} {cy : Cycle}
    (h : nth l c = some cy) (cy2 : Cycle) (hs : cy2.sockets = cy.sockets) (c2 : Nat) :
    (nth (setNth l c cy2) c2).map Cycle.sockets = (nth l c2).map Cycle.sockets := by
  by_cases hc : c2 = c
  · subst hc
    simp [nth_setNth_self (nth_lt_length h), h, hs]
  · simp [nth_setNth_ne _ (fun he => hc he.symm)]

theorem invA_setCycle_countLive {s : ClientState} {c : Nat} {cy : Cycle}
    (hc : nth s.cycles c = some cy) (cy2 : Cycle)
    (hcl : countLive cy2.sockets = countLive cy.sockets) (h : InvA s) :
    InvA (setCycle s c cy2) := by
  constructor
  · intro t htm c2 i hk
    simpa [setCycle, length_setNth] using h.1 t htm c2 i hk
  · intro c2
    have hl := liveAt_setCycle_of_countLive hc cy2 hcl c2
    have := h.2 c2
    simp only [cycleTokens] at *
    rw [hl]
    simpa [setCycle] using this

theorem invA_sockOpen {s : ClientState} (h : InvA s) (c i : Nat) :
    InvA (sockOpenEv s c i) := by
  cases hc : nth s.cycles c with
  | none => simpa [sockOpenEv, hc] using h
  | some cy =>
    cases hi : nth cy.sockets i with
    | none => simpa [sockOpenEv, hc, hi] using h
    | some st =>
      cases st with
      | connecting =>
        have hcl : countLive (setNth cy.sockets i SockState.opened) =
            countLive cy.sockets := by
          have := countLive_setNth hi SockState.opened
          simp at this
          omega
        have := invA_setCycle_countLive hc
          ({ cy with sockets := setNth cy.sockets i SockState.opened }) hcl h
        simpa [sockOpenEv, hc, hi] using this
      | opened => simpa [sockOpenEv, hc, hi] using h
      | closing => simpa [sockOpenEv, hc, hi] using h
      | closed => simpa [sockOpenEv, hc, hi] using h

theorem invA_sockMessage {s : ClientState} (h : InvA s) (c i : Nat) (d : JSValue) :
    InvA (sockMessageEv s c i d) := by
  cases hc : nth s.cycles c with
  | none => simpa [sockMessageEv, hc] using h
  | some cy =>
    cases hi : nth cy.sockets i with
    | none => simpa [sockMessageEv, hc, hi] using h
    | some st =>
      cases st with
      | opened =>
        refine invA_congr ?_ ?_ ?_ h
        · intro c2
          have := sockets_setNth_of_sockets hc
            ({ cy with deferred := resolveD cy.deferred }) rfl c2
          simpa [sockMessageEv, hc, hi] using this
        · simp [sockMessageEv, hc, hi, length_setNth]
        · simp [sockMessageEv, hc, hi]
      | connecting => simpa [sockMessageEv, hc, hi] using h
      | closing => simpa [sockMessageEv, hc, hi] using h
      | closed => simpa [sockMessageEv, hc, hi] using h

theorem invA_sockError {s : ClientState} (h : InvA s) (c i : Nat) :
    InvA (sockErrorEv s c i) := by
  cases hc : nth s.cycles c with
  | none => simpa [sockErrorEv, hc] using h
  | some cy =>
    cases hi : nth cy.sockets i with
    | none => simpa [sockErrorEv, hc, hi] using h
    | some st =>
      by_cases hst : st = SockState.closed
      · simpa [sockErrorEv, hc, hi, hst] using h
      · have := invA_setCycle_countLive hc
          ({ cy with deferred := rejectD cy.deferred }) rfl h
        simpa [sockErrorEv, hc, hi, hst] using this

theorem invA_wsClose {s : ClientState} (h : InvA s) (c : Nat) :
    InvA (wsClose s c) := by
  cases hc : nth s.cycles c with
  | none => simpa [wsClose, hc] using h
  | some cy =>
    cases hi : nth cy.sockets 0 with
    | none => simpa [wsClose, hc, hi] using h
    | some st =>
      cases st with
      | connecting =>
        have hcl : countLive (setNth cy.sockets 0 SockState.closing) =
            countLive cy.sockets := by
          have := countLive_setNth hi SockState.closing
          simp at this
          omega
        have := invA_setCycle_countLive hc
          ({ cy with sockets := setNth cy.sockets 0 SockState.closing }) hcl h
        simpa [wsClose, hc, hi] using this
      | opened =>
        have hcl : countLive (setNth cy.sockets 0 SockState.closing) =
            countLive cy.sockets := by
          have := countLive_setNth hi SockState.closing
          simp at this
          omega
        have := invA_setCycle_countLive hc
          ({ cy with sockets := setNth cy.sockets 0 SockState.closing }) hcl h
        simpa [wsClose, hc, hi] using this
      | closing => simpa [wsClose, hc, hi] using h
      | closed => simpa [wsClose, hc, hi] using h

theorem onClose_skel (s : ClientState) (c : Nat) :
    (onClose s c).cycles = s.cycles ∧ (onClose s c).timers = s.timers := by
  cases hc : nth s.cycles c with
  | none => simp [onClose, hc]
  | some cy =>
    cases hq : mlookup cy.path s.queryCache with
    | none => simp [onClose, hc, hq]
    | some q => simp [onClose, hc, hq]

theorem invA_onClose {s : ClientState} (h : InvA s) (c : Nat) : InvA (onClose s c) := by
  exact invA_congr (fun c2 => by rw [(onClose_skel s c).1])
    (by rw [(onClose_skel s c).1]) (onClose_skel s c).2 h

theorem invA_sockClose {s : ClientState} (h : InvA s) (c i code : Nat) :
    InvA (sockCloseEv s c i code) := by
  cases hc : nth s.cycles c with
  | none => simpa [sockCloseEv, hc] using h
  | some cy =>
    cases hi : nth cy.sockets i with
    | none => simpa [sockCloseEv, hc, hi] using h
    | some st =>
      by_cases hst : st = SockState.closed
      · simpa [sockCloseEv, hc, hi, hst] using h
      · have hlive : countLive (setNth cy.sockets i SockState.closed) + 1 =
            countLive cy.sockets := by
          have := countLive_setNth hi SockState.closed
          simp [hst] at this
          omega
        have hInvA1 : InvA (setCycle s c
            { cy with sockets := setNth cy.sockets i SockState.closed }) := by
          constructor
          · intro t htm c2 j hk
            simpa [setCycle, length_setNth] using h.1 t htm c2 j hk
          · intro c2
            by_cases hcc : c2 = c
            · subst hcc
              have := h.2 c2
              simp only [cycleTokens, liveAt, setCycle,
                nth_setNth_self (nth_lt_length hc), hc] at *
              omega
            · have := h.2 c2
              simp only [cycleTokens, liveAt, setCycle,
                nth_setNth_ne _ (fun he => hcc he.symm)] at *
              exact this
        by_cases hcode : code = 1006
        · have hgoal : InvA { setCycle s c
              { cy with sockets := setNth cy.sockets i SockState.closed } with
                timers := s.timers ++ [⟨s.nextTimerId, .reconnect c i, 1000⟩],
                nextTimerId := s.nextTimerId + 1 } := by
            constructor
            · intro t htm c2 j hk
              simp only [List.mem_append] at htm
              rcases htm with htm | htm
              · simpa [setCycle, length_setNth] using h.1 t htm c2 j hk
              · simp at htm
                subst htm
                simp at hk
                obtain ⟨hk1, hk2⟩ := hk
                subst hk1
                simpa [setCycle, length_setNth] using nth_lt_length hc
            · intro c2
              by_cases hcc : c2 = c
              · subst hcc
                have hz := h.2 c2
                have hrec : countRecon c2 (s.timers ++
                    [⟨s.nextTimerId, TimerKind.reconnect c2 i, 1000⟩]) =
                    countRecon c2 s.timers + 1 := by
                  rw [countRecon_append]
                  simp [countRecon, isReconFor]
                simp only [cycleTokens, liveAt, setCycle,
                  nth_setNth_self (nth_lt_length hc), hc] at *
                rw [hrec]
                omega
              · have hz := h.2 c2
                have hne : c ≠ c2 := fun he => hcc he.symm
                have hrec : countRecon c2 (s.timers ++
                    [⟨s.nextTimerId, TimerKind.reconnect c i, 1000⟩]) =
                    countRecon c2 s.timers := by
                  rw [countRecon_append]
                  simp [countRecon, isReconFor, hne]
                simp only [cycleTokens, liveAt, setCycle,
                  nth_setNth_ne _ (fun he => hcc he.symm)] at *
                rw [hrec]
                omega
          simpa [sockCloseEv, hc, hi, hst, hcode, setCycle] using hgoal
        · have := invA_onClose hInvA1 c
          simpa [sockCloseEv, hc, hi, hst, hcode] using this

theorem invA_filterTimers {s : ClientState} (h : InvA s) (p : PendingTimer → Bool) :
    InvA { s with timers := s.timers.filter p } := by
  constructor
  · intro t htm c i hk
    exact h.1 t (List.mem_filter.mp htm).1 c i hk
  · intro c
    have := h.2 c
    have h2 := countRecon_filter_le c p s.timers
    simp only [cycleTokens, liveAt] at *
    omega

theorem invA_fireTimer {s : ClientState} (h : InvA s) (tid : Nat) :
    InvA (fireTimer s tid) := by
  cases hf : s.timers.find? (fun t => t.id == tid) with
  | none => simpa [fireTimer, hf] using h
  | some t =>
    have hmem : t ∈ s.timers := List.mem_of_find?_eq_some hf
    have hid : t.id = tid := by
      have := List.find?_some hf
      simpa using this
    have hs1 : InvA { s with timers := s.timers.filter (fun u => !(u.id == tid)) } :=
      invA_filterTimers h _
    cases hk : t.kind with
    | reconnect c i =>
      cases hc : nth s.cycles c with
      | none => simpa [fireTimer, hf, hk, hc] using hs1
      | some cy =>
        cases hi : nth cy.sockets i with
        | none => simpa [fireTimer, hf, hk, hc, hi] using hs1
        | some st =>
          cases st with
          | closed =>
            have hkr : isReconFor c t.kind = true := by simp [hk, isReconFor]
            have hpos : 1 ≤ countRecon c s.timers := countRecon_pos_of_mem hmem hkr
            have htok := h.2 c
            have hlive0 : countLive cy.sockets = 0 := by
              simp only [cycleTokens, liveAt, hc] at htok
              omega
            have hrle : countRecon c s.timers ≤ 1 := by
              simp only [cycleTokens, liveAt, hc] at htok
              omega
            have hzero : countRecon c (s.timers.filter (fun u => !(u.id == t.id))) = 0 :=
              countRecon_filter_out hrle hmem hkr
            have hgoal : InvA (setCycle
                { s with timers := s.timers.filter (fun u => !(u.id == tid)) } c
                { cy with sockets := cy.sockets ++ [SockState.connecting] }) := by
              constructor
              · intro u hum c2 j hk2
                simpa [setCycle, length_setNth] using
                  hs1.1 u hum c2 j hk2
              · intro c2
                by_cases hcc : c2 = c
                · subst hcc
                  simp only [cycleTokens, liveAt, setCycle,
                    nth_setNth_self (nth_lt_length hc), hc]
                  rw [countLive_append]
                  simp [countLive, hlive0]
                  rw [hid] at hzero
                  omega
                · have := hs1.2 c2
                  simp only [cycleTokens, liveAt, setCycle,
                    nth_setNth_ne _ (fun he => hcc he.symm)] at *
                  exact this
            simpa [fireTimer, hf, hk, hc, hi] using hgoal
          | connecting => simpa [fireTimer, hf, hk, hc, hi] using hs1
          | opened => simpa [fireTimer, hf, hk, hc, hi] using hs1
          | closing => simpa [fireTimer, hf, hk, hc, hi] using hs1
    | cleanup c =>
      cases hc : nth ({ s with
          timers := s.timers.filter (fun u => !(u.id == tid)) } : ClientState).cycles c with
      | none => simpa [fireTimer, hf, hk, hc] using hs1
      | some cy =>
        by_cases hsub : cy.subs = []
        · have := invA_wsClose hs1 c
          simpa [fireTimer, hf, hk, hc, hsub] using this
        · simpa [fireTimer, hf, hk, hc, hsub] using hs1

theorem invA_step {s : ClientState} (h : InvA s) (e : Event) : InvA (step s e) := by
  cases e with
  | evLoad p => exact invA_load h p
  | evRead p b => exact invA_read h p b
  | evClearQuery p => exact invA_clearQuery h p
  | evSubscribe p l => exact invA_subscribe h p l
  | evUnsubscribe c l => exact invA_unsubscribe h c l
  | evSockOpen c i => exact invA_sockOpen h c i
  | evSockMessage c i d => exact invA_sockMessage h c i d
  | evSockError c i => exact invA_sockError h c i
  | evSockClose c i code => exact invA_sockClose h c i code
  | evTimerFire tid => exact invA_fireTimer h tid

theorem invA_init : InvA init := by
  constructor
  · intro t htm
    simp [init] at htm
  · intro c
    simp [cycleTokens, liveAt, init, nth, countRecon]

theorem invA_run {s : ClientState} (h : InvA s) (es : List Event) : InvA (run s es) := by
  induction es generalizing s with
  | nil => exact h
  | cons e es ih => exact ih (invA_step h e)

theorem invA_reachable {s : ClientState} (h : Reachable s) : InvA s := by
  obtain ⟨es, hes⟩ := h
  exact hes ▸ invA_run invA_init es

end InvAPreservation

/-- The per-path invariant that holds as long as clearQuery is never called:
(a) the budget invariant; (b) at most one cycle per path is active (has a
live socket or a pending reconnection timer); (c) a stale entry implies that
no cycle of its path is active and the value cache holds nothing for it;
(d) a path without an entry has no cycles at all. -/
def InvB (s : ClientState) : Prop :=
  InvA s ∧
  (∀ c1 c2 p, cyclePath s c1 = some p → cyclePath s c2 = some p →
    1 ≤ cycleTokens s c1 → 1 ≤ cycleTokens s c2 → c1 = c2) ∧
  (∀ p q, mlookup p s.queryCache = some q → q.lazilyRefetch = true →
    (∀ c, cyclePath s c = some p → cycleTokens s c = 0) ∧
      mlookup p s.valueCache = none) ∧
  (∀ p, mlookup p s.queryCache = none → ∀ c, cyclePath s c ≠ some p)

section InvBPreservation

theorem invB_mono {s s2 : ClientState}
    (hpath : ∀ c, cyclePath s2 c = cyclePath s c)
    (htok : ∀ c, cycleTokens s2 c ≤ cycleTokens s c)
    (hq : s2.queryCache = s.queryCache)
    (hv : s2.valueCache = s.valueCache)
    (hA2 : InvA s2) (h : InvB s) : InvB s2 := by
  obtain ⟨hA, hB1, hB2, hB3⟩ := h
  refine ⟨hA2, ?_, ?_, ?_⟩
  · intro c1 c2 p h1 h2 t1 t2
    rw [hpath c1] at h1
    rw [hpath c2] at h2
    exact hB1 c1 c2 p h1 h2 (le_trans t1 (htok c1)) (le_trans t2 (htok c2))
  · intro p q hq2 hl
    rw [hq] at hq2
    obtain ⟨hz, hvn⟩ := hB2 p q hq2 hl
    refine ⟨?_, by rw [hv]; exact hvn⟩
    intro c hp2
    rw [hpath c] at hp2
    have h1 := hz c hp2
    have h2 := htok c
    omega
  · intro p hq2 c
    rw [hq] at hq2
    rw [hpath c]
    exact hB3 p hq2 c

theorem proj_setNth_of_eq {β : Type} (f : Cycle → β) {l : List Cycle} {c : Nat}
    {cy : Cycle} (h : nth l c = some cy) (cy2 : Cycle) (hf : f cy2 = f cy) (c2 : Nat) :
    (nth (setNth l c cy2) c2).map f = (nth l c2).map f := by
  by_cases hc : c2 = c
  · subst hc
    simp [nth_setNth_self (nth_lt_length h), h, hf]
  · simp [nth_setNth_ne _ (fun he => hc he.symm)]

theorem cyclePath_congr {s s2 : ClientState} (h : s2.cycles = s.cycles) (c : Nat) :
    cyclePath s2 c = cyclePath s c := by
  simp [cyclePath, h]

theorem cycleTokens_setCycle_of_countLive {s : ClientState} {c : Nat} {cy : Cycle}
    (hc : nth s.cycles c = some cy) (cy2 : Cycle)
    (hcl : countLive cy2.sockets = countLive cy.sockets) (c2 : Nat) :
    cycleTokens (setCycle s c cy2) c2 = cycleTokens s c2 := by
  simp only [cycleTokens]
  rw [liveAt_setCycle_of_countLive hc cy2 hcl c2]
  rfl

theorem cyclePath_setCycle_of_path {s : ClientState} {c : Nat} {cy : Cycle}
    (hc : nth s.cycles c = some cy) (cy2 : Cycle) (hp : cy2.path = cy.path) (c2 : Nat) :
    cyclePath (setCycle s c cy2) c2 = cyclePath s c2 := by
  simp only [cyclePath, setCycle]
  exact proj_setNth_of_eq Cycle.path hc cy2 hp c2

theorem invB_subscribe {s : ClientState} (h : InvB s) (p : String) (l : Nat) :
    InvB (subscribeOp s p l).1 := by
  cases hq : mlookup p s.queryCache with
  | none => simpa [subscribeOp, hq] using h
  | some q =>
    cases hc : nth s.cycles q.cycle with
    | none => simpa [subscribeOp, hq, hc] using h
    | some cy =>
      refine invB_mono ?_ ?_ ?_ ?_ (invA_subscribe h.1 p l) h
      · intro c2
        have := cyclePath_setCycle_of_path hc
          ({ cy with subs := cy.subs ++ [l] }) rfl c2
        simp only [subscribeOp, hq, hc]
        simpa [cyclePath, setCycle] using this
      · intro c2
        refine le_of_eq ?_
        have := cycleTokens_setCycle_of_countLive hc
          ({ cy with subs := cy.subs ++ [l] }) rfl c2
        simp only [subscribeOp, hq, hc]
        simpa [cycleTokens, liveAt, setCycle, countRecon] using this
      · simp [subscribeOp, hq, hc, setCycle]
      · simp [subscribeOp, hq, hc, setCycle]

theorem invB_sockOpen {s : ClientState} (h : InvB s) (c i : Nat) :
    InvB (sockOpenEv s c i) := by
  cases hc : nth s.cycles c with
  | none => simpa [sockOpenEv, hc] using h
  | some cy =>
    cases hi : nth cy.sockets i with
    | none => simpa [sockOpenEv, hc, hi] using h
    | some st =>
      cases st with
      | connecting =>
        have hcl : countLive (setNth cy.sockets i SockState.opened) =
            countLive cy.sockets := by
          have := countLive_setNth hi SockState.opened
          simp at this
          omega
        have hmono := invB_mono
          (cyclePath_setCycle_of_path hc
            ({ cy with sockets := setNth cy.sockets i SockState.opened }) rfl)
          (fun c2 => le_of_eq (cycleTokens_setCycle_of_countLive hc
            ({ cy with sockets := setNth cy.sockets i SockState.opened }) hcl c2))
          rfl rfl (invA_setCycle_countLive hc
            ({ cy with sockets := setNth cy.sockets i SockState.opened }) hcl h.1) h
        simpa [sockOpenEv, hc, hi] using hmono
      | opened => simpa [sockOpenEv, hc, hi] using h
      | closing => simpa [sockOpenEv, hc, hi] using h
      | closed => simpa [sockOpenEv, hc, hi] using h

theorem invB_sockError {s : ClientState} (h : InvB s) (c i : Nat) :
    InvB (sockErrorEv s c i) := by
  cases hc : nth s.cycles c with
  | none => simpa [sockErrorEv, hc] using h
  | some cy =>
    cases hi : nth cy.sockets i with
    | none => simpa [sockErrorEv, hc, hi] using h
    | some st =>
      by_cases hst : st = SockState.closed
      · simpa [sockErrorEv, hc, hi, hst] using h
      · have hmono := invB_mono
          (cyclePath_setCycle_of_path hc
            ({ cy with deferred := rejectD cy.deferred }) rfl)
          (fun c2 => le_of_eq (cycleTokens_setCycle_of_countLive hc
            ({ cy with deferred := rejectD cy.deferred }) rfl c2))
          rfl rfl (invA_setCycle_countLive hc
            ({ cy with deferred := rejectD cy.deferred }) rfl h.1) h
        simpa [sockErrorEv, hc, hi, hst] using hmono

theorem invB_wsClose {s : ClientState} (h : InvB s) (c : Nat) :
    InvB (wsClose s c) := by
  cases hc : nth s.cycles c with
  | none => simpa [wsClose, hc] using h
  | some cy =>
    cases hi : nth cy.sockets 0 with
    | none => simpa [wsClose, hc, hi] using h
    | some st =>
      cases st with
      | connecting =>
        have hcl : countLive (setNth cy.sockets 0 SockState.closing) =
            countLive cy.sockets := by
          have := countLive_setNth hi SockState.closing
          simp at this
          omega
        have hmono := invB_mono
          (cyclePath_setCycle_of_path hc
            ({ cy with sockets := setNth cy.sockets 0 SockState.closing }) rfl)
          (fun c2 => le_of_eq (cycleTokens_setCycle_of_countLive hc
            ({ cy with sockets := setNth cy.sockets 0 SockState.closing }) hcl c2))
          rfl rfl (invA_setCycle_countLive hc
            ({ cy with sockets := setNth cy.sockets 0 SockState.closing }) hcl h.1) h
        simpa [wsClose, hc, hi] using hmono
      | opened =>
        have hcl : countLive (setNth cy.sockets 0 SockState.closing) =
            countLive cy.sockets := by
          have := countLive_setNth hi SockState.closing
          simp at this
          omega
        have hmono := invB_mono
          (cyclePath_setCycle_of_path hc
            ({ cy with sockets := setNth cy.sockets 0 SockState.closing }) rfl)
          (fun c2 => le_of_eq (cycleTokens_setCycle_of_countLive hc
            ({ cy with sockets := setNth cy.sockets 0 SockState.closing }) hcl c2))
          rfl rfl (invA_setCycle_countLive hc
            ({ cy with sockets := setNth cy.sockets 0 SockState.closing }) hcl h.1) h
        simpa [wsClose, hc, hi] using hmono
      | closing => simpa [wsClose, hc, hi] using h
      | closed => simpa [wsClose, hc, hi] using h

theorem countRecon_oob {s : ClientState} (hg : GoodT s) {c : Nat}
    (hge : s.cycles.length ≤ c) : countRecon c s.timers = 0 := by
  apply countRecon_eq_zero
  intro t htm
  cases hk : t.kind with
  | reconnect c2 i =>
    have := hg t htm c2 i hk
    simp [isReconFor]
    omega
  | cleanup c2 => simp [isReconFor]

theorem invB_unsub_core {s : ClientState} {c : Nat} {cy : Cycle}
    (hc : nth s.cycles c = some cy) (cy2 : Cycle)
    (hsock : cy2.sockets = cy.sockets) (hpath : cy2.path = cy.path)
    {T : List PendingTimer}
    (hT : ∀ c2, countRecon c2 T ≤ countRecon c2 s.timers)
    (hTm : ∀ t ∈ T, t ∈ s.timers)
    (h : InvB s) (nid d n2 : Nat) :
    InvB { s with cycles := setNth s.cycles c cy2,
                  timers := T ++ [⟨nid, .cleanup c, d⟩],
                  nextTimerId := n2 } := by
  have hpaths : ∀ c2, cyclePath { s with cycles := setNth s.cycles c cy2,
                                          timers := T ++ [⟨nid, .cleanup c, d⟩],
                                          nextTimerId := n2 } c2 = cyclePath s c2 := by
    intro c2
    simp only [cyclePath]
    exact proj_setNth_of_eq Cycle.path hc cy2 hpath c2
  have htoks : ∀ c2, cycleTokens { s with cycles := setNth s.cycles c cy2,
                                           timers := T ++ [⟨nid, .cleanup c, d⟩],
                                           nextTimerId := n2 } c2 ≤ cycleTokens s c2 := by
    intro c2
    have hl2 : countLive ((nth (setNth s.cycles c cy2) c2).elim [] Cycle.sockets) =
        countLive ((nth s.cycles c2).elim [] Cycle.sockets) :=
      liveAt_setNth_of_countLive hc cy2 (by rw [hsock]) c2 _ rfl
    have hr2 : countRecon c2 (T ++ [⟨nid, TimerKind.cleanup c, d⟩]) ≤
        countRecon c2 s.timers := by
      rw [countRecon_append]
      have := hT c2
      simp [countRecon, isReconFor]
      omega
    have he1 := liveAt_as_elim s c2
    have he2 := liveAt_as_elim { s with cycles := setNth s.cycles c cy2,
                                        timers := T ++ [⟨nid, .cleanup c, d⟩],
                                        nextTimerId := n2 } c2
    simp only [cycleTokens]
    rw [he1, he2]
    simp only []
    rw [hl2]
    exact Nat.add_le_add (Nat.le_refl _) hr2
  exact invB_mono hpaths htoks rfl rfl
    (invA_unsub_core hc cy2 hsock hT hTm h.1 nid d n2) h

theorem invB_unsubscribe {s : ClientState} (h : InvB s) (c l : Nat) :
    InvB (unsubscribeOp s c l) := by
  by_cases hm : (c, l) ∈ s.issuedUnsubs
  · cases hc : nth s.cycles c with
    | none => simpa [unsubscribeOp, hm, hc] using h
    | some cy =>
      cases hct : cy.cleanupTimer with
      | none =>
        have := invB_unsub_core hc
          ({ cy with subs := removeListener l cy.subs,
                            cleanupTimer := some s.nextTimerId }) rfl rfl
          (T := s.timers) (fun c2 => Nat.le_refl _) (fun t ht => ht) h
          s.nextTimerId 9999 (s.nextTimerId + 1)
        simpa [unsubscribeOp, hm, hc, hct] using this
      | some tid =>
        have := invB_unsub_core hc
          ({ cy with subs := removeListener l cy.subs,
                            cleanupTimer := some s.nextTimerId }) rfl rfl
          (T := s.timers.filter (fun u => !(u.id == tid)))
          (fun c2 => countRecon_filter_le c2 _ s.timers)
          (fun t ht => (List.mem_filter.mp ht).1) h
          s.nextTimerId 9999 (s.nextTimerId + 1)
        simpa [unsubscribeOp, hm, hc, hct] using this
  · simpa [unsubscribeOp, hm] using h

theorem invB_filterTimers {s : ClientState} (h : InvB s) (p : PendingTimer → Bool) :
    InvB { s with timers := s.timers.filter p } := by
  have hpaths : ∀ c2, cyclePath { s with timers := s.timers.filter p } c2 =
      cyclePath s c2 := fun c2 => rfl
  have htoks : ∀ c2, cycleTokens { s with timers := s.timers.filter p } c2 ≤
      cycleTokens s c2 := by
    intro c2
    have := countRecon_filter_le c2 p s.timers
    simp only [cycleTokens, liveAt]
    omega
  exact invB_mono hpaths htoks rfl rfl (invA_filterTimers h.1 p) h

theorem invB_fireTimer {s : ClientState} (h : InvB s) (tid : Nat) :
    InvB (fireTimer s tid) := by
  cases hf : s.timers.find? (fun t => t.id == tid) with
  | none => simpa [fireTimer, hf] using h
  | some t =>
    have hmem : t ∈ s.timers := List.mem_of_find?_eq_some hf
    have hid : t.id = tid := by
      have := List.find?_some hf
      simpa using this
    have hs1 : InvB { s with timers := s.timers.filter (fun u => !(u.id == tid)) } :=
      invB_filterTimers h _
    cases hk : t.kind with
    | reconnect c i =>
      cases hc : nth s.cycles c with
      | none => simpa [fireTimer, hf, hk, hc] using hs1
      | some cy =>
        cases hi : nth cy.sockets i with
        | none => simpa [fireTimer, hf, hk, hc, hi] using hs1
        | some st =>
          cases st with
          | closed =>
            have hkr : isReconFor c t.kind = true := by simp [hk, isReconFor]
            have hpos : 1 ≤ countRecon c s.timers := countRecon_pos_of_mem hmem hkr
            have htok := h.1.2 c
            have hlive0 : countLive cy.sockets = 0 := by
              simp only [cycleTokens, liveAt, hc] at htok
              omega
            have hrle : countRecon c s.timers ≤ 1 := by
              simp only [cycleTokens, liveAt, hc] at htok
              omega
            have hzero : countRecon c (s.timers.filter (fun u => !(u.id == t.id))) = 0 :=
              countRecon_filter_out hrle hmem hkr
            rw [hid] at hzero
            have hA2 : InvA (setCycle
                { s with timers := s.timers.filter (fun u => !(u.id == tid)) } c
                { cy with sockets := cy.sockets ++ [SockState.connecting] }) := by
              have := invA_fireTimer h.1 tid
              simpa [fireTimer, hf, hk, hc, hi] using this
            have hpaths : ∀ c2, cyclePath (setCycle
                { s with timers := s.timers.filter (fun u => !(u.id == tid)) } c
                { cy with sockets := cy.sockets ++ [SockState.connecting] }) c2 =
                cyclePath s c2 := by
              intro c2
              simp only [cyclePath, setCycle]
              exact proj_setNth_of_eq Cycle.path hc
                ({ cy with sockets := cy.sockets ++ [SockState.connecting] }) rfl c2
            have htoks : ∀ c2, cycleTokens (setCycle
                { s with timers := s.timers.filter (fun u => !(u.id == tid)) } c
                { cy with sockets := cy.sockets ++ [SockState.connecting] }) c2 ≤
                cycleTokens s c2 := by
              intro c2
              by_cases hcc : c2 = c
              · subst hcc
                simp only [cycleTokens, liveAt, setCycle,
                  nth_setNth_self (nth_lt_length hc), hc]
                rw [countLive_append]
                simp [countLive, hlive0, hzero]
                omega
              · have hcr := countRecon_filter_le c2 (fun u => !(u.id == tid)) s.timers
                simp only [cycleTokens, liveAt, setCycle,
                  nth_setNth_ne _ (fun he => hcc he.symm)]
                omega
            have hmono := invB_mono hpaths htoks rfl rfl hA2 h
            simpa [fireTimer, hf, hk, hc, hi] using hmono
          | connecting => simpa [fireTimer, hf, hk, hc, hi] using hs1
          | opened => simpa [fireTimer, hf, hk, hc, hi] using hs1
          | closing => simpa [fireTimer, hf, hk, hc, hi] using hs1
    | cleanup c =>
      cases hc : nth ({ s with
          timers := s.timers.filter (fun u => !(u.id == tid)) } : ClientState).cycles c with
      | none => simpa [fireTimer, hf, hk, hc] using hs1
      | some cy =>
        by_cases hsub : cy.subs = []
        · have := invB_wsClose hs1 c
          simpa [fireTimer, hf, hk, hc, hsub] using this
        · simpa [fireTimer, hf, hk, hc, hsub] using hs1

theorem cyclePath_startCycle (s : ClientState) (p : String) (c2 : Nat) :
    cyclePath (startCycle s p) c2 =
      if c2 = s.cycles.length then some p else cyclePath s c2 := by
  by_cases h : c2 = s.cycles.length
  · subst h
    simp [cyclePath, startCycle, nth_append_length]
  · by_cases hlt : c2 < s.cycles.length
    · simp [cyclePath, startCycle, nth_append_left hlt, h]
    · have hge : s.cycles.length ≤ c2 := by omega
      have h2 : nth s.cycles c2 = none := nth_eq_none_of_ge hge
      have h1 : ∀ x : Cycle, nth (s.cycles ++ [x]) c2 = none := by
        intro x
        apply nth_eq_none_of_ge
        simp
        omega
      simp [cyclePath, startCycle, h1, h2, h]

theorem cycleTokens_startCycle {s : ClientState} (hg : GoodT s) (p : String) (c2 : Nat) :
    cycleTokens (startCycle s p) c2 =
      if c2 = s.cycles.length then 1 else cycleTokens s c2 := by
  by_cases h : c2 = s.cycles.length
  · subst h
    have h0 : countRecon s.cycles.length s.timers = 0 := countRecon_oob hg (Nat.le_refl _)
    simp [cycleTokens, liveAt, startCycle, nth_append_length, countLive, h0]
  · by_cases hlt : c2 < s.cycles.length
    · simp [cycleTokens, liveAt, startCycle, nth_append_left hlt, h]
    · have hge : s.cycles.length ≤ c2 := by omega
      have h2 : nth s.cycles c2 = none := nth_eq_none_of_ge hge
      have h1 : ∀ x : Cycle, nth (s.cycles ++ [x]) c2 = none := by
        intro x
        apply nth_eq_none_of_ge
        simp
        omega
      simp [cycleTokens, liveAt, startCycle, h1, h2, h]

theorem invB_startCycle {s : ClientState} (h : InvB s) {p : String}
    (hzero : ∀ c, cyclePath s c = some p → cycleTokens s c = 0) :
    InvB (startCycle s p) := by
  obtain ⟨hA, hB1, hB2, hB3⟩ := h
  have hg := hA.1
  refine ⟨invA_startCycle hA p, ?_, ?_, ?_⟩
  · intro c1 c2 p2 h1 h2 t1 t2
    rw [cyclePath_startCycle] at h1 h2
    rw [cycleTokens_startCycle hg] at t1 t2
    by_cases hc1 : c1 = s.cycles.length
    · by_cases hc2 : c2 = s.cycles.length
      · rw [hc1, hc2]
      · exfalso
        simp [hc1] at h1
        simp [hc2] at h2 t2
        subst h1
        have := hzero c2 h2
        omega
    · by_cases hc2 : c2 = s.cycles.length
      · exfalso
        simp [hc2] at h2
        simp [hc1] at h1 t1
        subst h2
        have := hzero c1 h1
        omega
      · simp [hc1] at h1 t1
        simp [hc2] at h2 t2
        exact hB1 c1 c2 p2 h1 h2 t1 t2
  · intro p2 q2 hq2 hl2
    by_cases hpp : p2 = p
    · subst hpp
      rw [show (startCycle s p2).queryCache =
          mset p2 ⟨s.cycles.length, false⟩ s.queryCache from rfl,
        mlookup_mset_self] at hq2
      cases hq2
      simp at hl2
    · rw [show (startCycle s p).queryCache =
          mset p ⟨s.cycles.length, false⟩ s.queryCache from rfl,
        mlookup_mset_ne p2 p _ _ (fun he => hpp he.symm)] at hq2
      obtain ⟨hz, hvn⟩ := hB2 p2 q2 hq2 hl2
      refine ⟨?_, hvn⟩
      intro c2 hcp
      rw [cyclePath_startCycle] at hcp
      rw [cycleTokens_startCycle hg]
      by_cases hc2 : c2 = s.cycles.length
      · simp [hc2] at hcp
        exact absurd hcp.symm hpp
      · simp [hc2] at hcp ⊢
        exact hz c2 hcp
  · intro p2 hq2 c2
    by_cases hpp : p2 = p
    · subst hpp
      rw [show (startCycle s p2).queryCache =
          mset p2 ⟨s.cycles.length, false⟩ s.queryCache from rfl,
        mlookup_mset_self] at hq2
      cases hq2
    · rw [show (startCycle s p).queryCache =
          mset p ⟨s.cycles.length, false⟩ s.queryCache from rfl,
        mlookup_mset_ne p2 p _ _ (fun he => hpp he.symm)] at hq2
      rw [cyclePath_startCycle]
      by_cases hc2 : c2 = s.cycles.length
      · simp [hc2]
        exact fun he => hpp he.symm
      · simp [hc2]
        exact hB3 p2 hq2 c2

theorem invB_load {s : ClientState} (h : InvB s) (p : String) : InvB (load s p) := by
  cases hq : mlookup p s.queryCache with
  | none =>
    have hzero : ∀ c, cyclePath s c = some p → cycleTokens s c = 0 := by
      intro c hcp
      exact absurd hcp (h.2.2.2 p hq c)
    simpa [load, hq] using invB_startCycle h hzero
  | some q =>
    by_cases hl : q.lazilyRefetch
    · have hzero := (h.2.2.1 p q hq hl).1
      simpa [load, hq, hl] using invB_startCycle h hzero
    · simpa [load, hq, hl] using h

theorem invB_read {s : ClientState} (h : InvB s) (p : String) (b : Bool) :
    InvB (read s p b).1 := by
  cases hq : mlookup p s.queryCache with
  | none => simpa [read, hq] using h
  | some q =>
    by_cases hl : q.lazilyRefetch
    · cases hv : mlookup p (load s p).valueCache with
      | none =>
        cases b <;> simp [read, hq, hl, hv] <;> exact invB_load h p
      | some v =>
        by_cases hf : falsy v
        · cases b <;> simp [read, hq, hl, hv, hf] <;> exact invB_load h p
        · by_cases he : errorPayload v
          · simp [read, hq, hl, hv, hf, he]
            exact invB_load h p
          · simp [read, hq, hl, hv, hf, he]
            exact invB_load h p
    · cases hv : mlookup p s.valueCache with
      | none =>
        cases b <;> simp [read, hq, hl, hv] <;> exact h
      | some v =>
        by_cases hf : falsy v
        · cases b <;> simp [read, hq, hl, hv, hf] <;> exact h
        · by_cases he : errorPayload v
          · simp [read, hq, hl, hv, hf, he]
            exact h
          · simp [read, hq, hl, hv, hf, he]
            exact h

theorem invB_sockMessage {s : ClientState} (h : InvB s) (c i : Nat) (d : JSValue) :
    InvB (sockMessageEv s c i d) := by
  cases hc : nth s.cycles c with
  | none => simpa [sockMessageEv, hc] using h
  | some cy =>
    cases hi : nth cy.sockets i with
    | none => simpa [sockMessageEv, hc, hi] using h
    | some st =>
      cases st with
      | opened =>
        obtain ⟨hA, hB1, hB2, hB3⟩ := h
        have hlive : 1 ≤ countLive cy.sockets := countLive_pos hi (by simp)
        have hA2 : InvA (sockMessageEv s c i d) := invA_sockMessage hA c i d
        have hpaths : ∀ c2, cyclePath { s with
            valueCache := mset cy.path d s.valueCache,
            cycles := setNth s.cycles c
              { cy with deferred := resolveD cy.deferred } } c2 = cyclePath s c2 := by
          intro c2
          simp only [cyclePath]
          exact proj_setNth_of_eq Cycle.path hc
            ({ cy with deferred := resolveD cy.deferred }) rfl c2
        have htoks : ∀ c2, cycleTokens { s with
            valueCache := mset cy.path d s.valueCache,
            cycles := setNth s.cycles c
              { cy with deferred := resolveD cy.deferred } } c2 = cycleTokens s c2 := by
          intro c2
          apply cycleTokens_congr
          · intro c3
            exact sockets_setNth_of_sockets hc
              ({ cy with deferred := resolveD cy.deferred }) rfl c3
          · rfl
        have hgoal : InvB { s with
            valueCache := mset cy.path d s.valueCache,
            cycles := setNth s.cycles c
              { cy with deferred := resolveD cy.deferred } } := by
          refine ⟨?_, ?_, ?_, ?_⟩
          · simpa [sockMessageEv, hc, hi] using hA2
          · intro c1 c2 p2 h1 h2 t1 t2
            rw [hpaths] at h1 h2
            rw [htoks] at t1 t2
            exact hB1 c1 c2 p2 h1 h2 t1 t2
          · intro p2 q2 hq2 hl2
            obtain ⟨hz, hvn⟩ := hB2 p2 q2 hq2 hl2
            by_cases hpp : p2 = cy.path
            · exfalso
              subst hpp
              have h0 := hz c (by simp [cyclePath, hc])
              simp only [cycleTokens, liveAt, hc] at h0
              omega
            · refine ⟨?_, ?_⟩
              · intro c2 hcp
                rw [hpaths] at hcp
                rw [htoks]
                exact hz c2 hcp
              · show mlookup p2 (mset cy.path d s.valueCache) = none
                rw [mlookup_mset_ne p2 cy.path _ _ (fun he => hpp he.symm)]
                exact hvn
          · intro p2 hq2 c2
            rw [hpaths]
            exact hB3 p2 hq2 c2
        simpa [sockMessageEv, hc, hi] using hgoal
      | connecting => simpa [sockMessageEv, hc, hi] using h
      | closing => simpa [sockMessageEv, hc, hi] using h
      | closed => simpa [sockMessageEv, hc, hi] using h

theorem invB_sockClose {s : ClientState} (h : InvB s) (c i code : Nat) :
    InvB (sockCloseEv s c i code) := by
  cases hc : nth s.cycles c with
  | none => simpa [sockCloseEv, hc] using h
  | some cy =>
    cases hi : nth cy.sockets i with
    | none => simpa [sockCloseEv, hc, hi] using h
    | some st =>
      by_cases hst : st = SockState.closed
      · simpa [sockCloseEv, hc, hi, hst] using h
      · have hlivepos : 1 ≤ countLive cy.sockets := countLive_pos hi hst
        have hlive : countLive (setNth cy.sockets i SockState.closed) + 1 =
            countLive cy.sockets := by
          have := countLive_setNth hi SockState.closed
          simp [hst] at this
          omega
        have hpaths1 : ∀ c2, cyclePath (setCycle s c
            { cy with sockets := setNth cy.sockets i SockState.closed }) c2 =
            cyclePath s c2 :=
          cyclePath_setCycle_of_path hc
            ({ cy with sockets := setNth cy.sockets i SockState.closed }) rfl
        have htok1c : cycleTokens (setCycle s c
            { cy with sockets := setNth cy.sockets i SockState.closed }) c + 1 =
            cycleTokens s c := by
          simp only [cycleTokens, liveAt, setCycle, nth_setNth_self (nth_lt_length hc), hc]
          omega
        have htok1 : ∀ c2, cycleTokens (setCycle s c
            { cy with sockets := setNth cy.sockets i SockState.closed }) c2 ≤
            cycleTokens s c2 := by
          intro c2
          by_cases hcc : c2 = c
          · subst hcc
            omega
          · simp only [cycleTokens, liveAt, setCycle,
              nth_setNth_ne _ (fun he => hcc he.symm)]
            exact Nat.le_refl _
        by_cases hcode : code = 1006
        · have hA2 : InvA { setCycle s c
              { cy with sockets := setNth cy.sockets i SockState.closed } with
                timers := s.timers ++ [⟨s.nextTimerId, .reconnect c i, 1000⟩],
                nextTimerId := s.nextTimerId + 1 } := by
            have := invA_sockClose h.1 c i code
            simpa [sockCloseEv, hc, hi, hst, hcode, setCycle] using this
          have hpaths2 : ∀ c2, cyclePath { setCycle s c
              { cy with sockets := setNth cy.sockets i SockState.closed } with
                timers := s.timers ++ [⟨s.nextTimerId, .reconnect c i, 1000⟩],
                nextTimerId := s.nextTimerId + 1 } c2 = cyclePath s c2 := hpaths1
          have htoks2 : ∀ c2, cycleTokens { setCycle s c
              { cy with sockets := setNth cy.sockets i SockState.closed } with
                timers := s.timers ++ [⟨s.nextTimerId, .reconnect c i, 1000⟩],
                nextTimerId := s.nextTimerId + 1 } c2 ≤ cycleTokens s c2 := by
            intro c2
            by_cases hcc : c2 = c
            · subst hcc
              have hrec : countRecon c2 (s.timers ++
                  [⟨s.nextTimerId, TimerKind.reconnect c2 i, 1000⟩]) =
                  countRecon c2 s.timers + 1 := by
                rw [countRecon_append]
                simp [countRecon, isReconFor]
              simp only [cycleTokens, liveAt, setCycle,
                nth_setNth_self (nth_lt_length hc), hc] at *
              rw [hrec]
              omega
            · have hne : c ≠ c2 := fun he => hcc he.symm
              have hrec : countRecon c2 (s.timers ++
                  [⟨s.nextTimerId, TimerKind.reconnect c i, 1000⟩]) =
                  countRecon c2 s.timers := by
                rw [countRecon_append]
                simp [countRecon, isReconFor, hne]
              simp only [cycleTokens, liveAt, setCycle,
                nth_setNth_ne _ (fun he => hcc he.symm)] at *
              rw [hrec]
          have hmono := invB_mono hpaths2 htoks2 rfl rfl hA2 h
          simpa [sockCloseEv, hc, hi, hst, hcode, setCycle] using hmono
        · cases hq0 : mlookup cy.path s.queryCache with
          | none =>
            exfalso
            exact h.2.2.2 cy.path hq0 c (by simp [cyclePath, hc])
          | some q =>
            obtain ⟨hA, hB1, hB2, hB3⟩ := h
            have hA2 : InvA { setCycle s c
                { cy with sockets := setNth cy.sockets i SockState.closed } with
                  valueCache := mdel cy.path s.valueCache,
                  queryCache := mset cy.path ⟨q.cycle, true⟩ s.queryCache } := by
              have := invA_sockClose hA c i code
              simpa [sockCloseEv, hc, hi, hst, hcode, onClose, setCycle,
                nth_setNth_self (nth_lt_length hc), hq0] using this
            have hsc : 1 ≤ cycleTokens s c := by
              simp only [cycleTokens, liveAt, hc]
              omega
            have hgoal : InvB { setCycle s c
                { cy with sockets := setNth cy.sockets i SockState.closed } with
                  valueCache := mdel cy.path s.valueCache,
                  queryCache := mset cy.path ⟨q.cycle, true⟩ s.queryCache } := by
              refine ⟨hA2, ?_, ?_, ?_⟩
              · intro c1 c2 p2 h1 h2 t1 t2
                rw [show ∀ c3, cyclePath { setCycle s c
                    { cy with sockets := setNth cy.sockets i SockState.closed } with
                      valueCache := mdel cy.path s.valueCache,
                      queryCache := mset cy.path ⟨q.cycle, true⟩ s.queryCache } c3 =
                    cyclePath s c3 from hpaths1] at h1 h2
                exact hB1 c1 c2 p2 h1 h2 (le_trans t1 (htok1 c1)) (le_trans t2 (htok1 c2))
              · intro p2 q2 hq2 hl2
                by_cases hpp : p2 = cy.path
                · subst hpp
                  refine ⟨?_, by simpa using mlookup_mdel_self cy.path s.valueCache⟩
                  intro c2 hcp
                  rw [show cyclePath { setCycle s c
                      { cy with sockets := setNth cy.sockets i SockState.closed } with
                        valueCache := mdel cy.path s.valueCache,
                        queryCache := mset cy.path ⟨q.cycle, true⟩ s.queryCache } c2 =
                      cyclePath s c2 from hpaths1 c2] at hcp
                  have hb : cycleTokens { setCycle s c
                      { cy with sockets := setNth cy.sockets i SockState.closed } with
                        valueCache := mdel cy.path s.valueCache,
                        queryCache := mset cy.path ⟨q.cycle, true⟩ s.queryCache } c2 =
                      cycleTokens (setCycle s c
                      { cy with sockets := setNth cy.sockets i SockState.closed }) c2 := rfl
                  rw [hb]
                  by_cases hcc : c2 = c
                  · rw [hcc]
                    have ht := hA.2 c
                    omega
                  · by_cases hpos : 1 ≤ cycleTokens s c2
                    · exact absurd (hB1 c2 c cy.path hcp (by simp [cyclePath, hc]) hpos hsc)
                        hcc
                    · have := htok1 c2
                      omega
                · rw [show ({ setCycle s c
                      { cy with sockets := setNth cy.sockets i SockState.closed } with
                        valueCache := mdel cy.path s.valueCache,
                        queryCache := mset cy.path ⟨q.cycle, true⟩ s.queryCache } :
                      ClientState).queryCache =
                      mset cy.path ⟨q.cycle, true⟩ s.queryCache from rfl,
                    mlookup_mset_ne p2 cy.path _ _ (fun he => hpp he.symm)] at hq2
                  obtain ⟨hz, hvn⟩ := hB2 p2 q2 hq2 hl2
                  refine ⟨?_, ?_⟩
                  · intro c2 hcp
                    rw [show cyclePath { setCycle s c
                        { cy with sockets := setNth cy.sockets i SockState.closed } with
                          valueCache := mdel cy.path s.valueCache,
                          queryCache := mset cy.path ⟨q.cycle, true⟩ s.queryCache } c2 =
                        cyclePath s c2 from hpaths1 c2] at hcp
                    have hb : cycleTokens { setCycle s c
                        { cy with sockets := setNth cy.sockets i SockState.closed } with
                          valueCache := mdel cy.path s.valueCache,
                          queryCache := mset cy.path ⟨q.cycle, true⟩ s.queryCache } c2 =
                        cycleTokens (setCycle s c
                        { cy with sockets := setNth cy.sockets i SockState.closed }) c2 := rfl
                    rw [hb]
                    have := hz c2 hcp
                    have := htok1 c2
                    omega
                  · show mlookup p2 (mdel cy.path s.valueCache) = none
                    rw [mlookup_mdel_ne p2 cy.path _ (fun he => hpp he.symm)]
                    exact hvn
              · intro p2 hq2 c2
                by_cases hpp : p2 = cy.path
                · subst hpp
                  rw [show ({ setCycle s c
                      { cy with sockets := setNth cy.sockets i SockState.closed } with
                        valueCache := mdel cy.path s.valueCache,
                        queryCache := mset cy.path ⟨q.cycle, true⟩ s.queryCache } :
                      ClientState).queryCache =
                      mset cy.path ⟨q.cycle, true⟩ s.queryCache from rfl,
                    mlookup_mset_self] at hq2
                  cases hq2
                · rw [show ({ setCycle s c
                      { cy with sockets := setNth cy.sockets i SockState.closed } with
                        valueCache := mdel cy.path s.valueCache,
                        queryCache := mset cy.path ⟨q.cycle, true⟩ s.queryCache } :
                      ClientState).queryCache =
                      mset cy.path ⟨q.cycle, true⟩ s.queryCache from rfl,
                    mlookup_mset_ne p2 cy.path _ _ (fun he => hpp he.symm)] at hq2
                  rw [show cyclePath { setCycle s c
                      { cy with sockets := setNth cy.sockets i SockState.closed } with
                        valueCache := mdel cy.path s.valueCache,
                        queryCache := mset cy.path ⟨q.cycle, true⟩ s.queryCache } c2 =
                      cyclePath s c2 from hpaths1 c2]
                  exact hB3 p2 hq2 c2
            simpa [sockCloseEv, hc, hi, hst, hcode, onClose, setCycle,
              nth_setNth_self (nth_lt_length hc), hq0] using hgoal

theorem invB_step {s : ClientState} (h : InvB s) {e : Event}
    (hcq : isClearQuery e = false) : InvB (step s e) := by
  cases e with
  | evLoad p => exact invB_load h p
  | evRead p b => exact invB_read h p b
  | evClearQuery p => simp [isClearQuery] at hcq
  | evSubscribe p l => exact invB_subscribe h p l
  | evUnsubscribe c l => exact invB_unsubscribe h c l
  | evSockOpen c i => exact invB_sockOpen h c i
  | evSockMessage c i d => exact invB_sockMessage h c i d
  | evSockError c i => exact invB_sockError h c i
  | evSockClose c i code => exact invB_sockClose h c i code
  | evTimerFire tid => exact invB_fireTimer h tid

theorem invB_init : InvB init := by
  refine ⟨invA_init, ?_, ?_, ?_⟩
  · intro c1 c2 p h1
    simp [cyclePath, init, nth] at h1
  · intro p q hq
    simp [mlookup, init] at hq
  · intro p hq c
    simp [cyclePath, init, nth]

theorem invB_run {s : ClientState} (h : InvB s) {es : List Event} (hcq : cqFree es) :
    InvB (run s es) := by
  induction es generalizing s with
  | nil => exact h
  | cons e es ih =>
    have h1 : isClearQuery e = false := hcq e (by simp)
    have h2 : cqFree es := fun e2 he2 => hcq e2 (by simp [he2])
    exact ih (invB_step h h1) h2

end InvBPreservation

theorem load_valueCache (s : ClientState) (p : String) :
    (load s p).valueCache = s.valueCache := by
  cases hq : mlookup p s.queryCache with
  | none => simp [load, hq, startCycle]
  | some q =>
    by_cases hl : q.lazilyRefetch <;> simp [load, hq, hl, startCycle]

/-- C3: when a QueryEntry exists for the path with lazilyRefetch false, load
is a no-op: the entire client state (query cache, value cache, cycles with
their subscriber lists, sockets and timers) is returned unchanged, so no new
connection or pending-result handle is created and load is idempotent while
a load is in flight and not stale. -/
theorem c3_load_idempotent (s : ClientState) (p : String) (q : QueryEntry)
    (hq : mlookup p s.queryCache = some q) (hl : q.lazilyRefetch = false) :
    step s (.evLoad p) = s := by
  simp [step, load, hq, hl]

theorem c3_load_idempotent_witness :
    mlookup "a" (run init [.evLoad "a"]).queryCache = some ⟨0, false⟩ ∧
      step (run init [.evLoad "a"]) (.evLoad "a") = run init [.evLoad "a"] :=
  ⟨rfl, c3_load_idempotent (run init [.evLoad "a"]) "a" ⟨0, false⟩ rfl rfl⟩

/-- C6: for a path with no QueryEntry, read and subscribe both throw the
usage error immediately and leave the whole state unchanged: no retry, no
entry creation, no cache mutation. -/
theorem c6_usage_error (s : ClientState) (p : String) (b : Bool) (l : Nat)
    (hq : mlookup p s.queryCache = none) :
    read s p b = (s, .usageError ("invariant: call load() first for " ++ p)) ∧
      subscribeOp s p l = (s, some ("invariant: call load() first for " ++ p)) := by
  constructor
  · simp [read, hq]
  · simp [subscribeOp, hq]

theorem c6_usage_error_witness :
    mlookup "a" init.queryCache = none ∧
      read init "a" true = (init, .usageError "invariant: call load() first for a") ∧
      subscribeOp init "a" 7 = (init, some "invariant: call load() first for a") :=
  ⟨rfl, (c6_usage_error init "a" true 7 rfl).1, (c6_usage_error init "a" true 7 rfl).2⟩

/-- C7: when the cached value for a path is an object with an error field,
read throws a read error whose message is built from the percent-decoded
path and the stringified error detail (so it contains both), for either
value of suspend; and any cached value that is truthy and not an error
payload is returned as the read result. -/
theorem c7_error_payload :
    (∀ s p (q : QueryEntry) fs e b, mlookup p s.queryCache = some q →
      mlookup p s.valueCache = some (.vObj fs) → mlookup "error" fs = some e →
      (read s p b).2 = .readError ("Error reading \"" ++ decodeURIComponent p ++
        "\" - [" ++ jsToString e ++ "]")) ∧
    (∀ s p (q : QueryEntry) v b, mlookup p s.queryCache = some q →
      mlookup p s.valueCache = some v → falsy v = false → errorPayload v = false →
      (read s p b).2 = .value v) := by
  constructor
  · intro s p q fs e b hq hv he
    have hep : errorPayload (JSValue.vObj fs) = true := by simp [errorPayload, he]
    have hmsg : readErrMsg p (.vObj fs) = "Error reading \"" ++ decodeURIComponent p ++
        "\" - [" ++ jsToString e ++ "]" := by
      simp [readErrMsg, errDetail, he]
    by_cases hl : q.lazilyRefetch
    · have hv2 : mlookup p (load s p).valueCache = some (.vObj fs) := by
        rw [load_valueCache]; exact hv
      simp [read, hq, hl, hv2, falsy, hep, hmsg]
    · simp [read, hq, hl, hv, falsy, hep, hmsg]
  · intro s p q v b hq hv hf hep
    by_cases hl : q.lazilyRefetch
    · have hv2 : mlookup p (load s p).valueCache = some v := by
        rw [load_valueCache]; exact hv
      simp [read, hq, hl, hv2, hf, hep]
    · simp [read, hq, hl, hv, hf, hep]

theorem c7_error_payload_witness :
    (read (run init [.evLoad "a%20b", .evSockOpen 0 0,
        .evSockMessage 0 0 (.vObj [("error", .vStr "boom")])]) "a%20b" true).2 =
      .readError "Error reading \"a b\" - [boom]" ∧
    (read (run init [.evLoad "a", .evSockOpen 0 0,
        .evSockMessage 0 0 (.vStr "ok")]) "a" true).2 = .value (.vStr "ok") := by
  constructor
  · have := c7_error_payload.1 (run init [.evLoad "a%20b", .evSockOpen 0 0,
      .evSockMessage 0 0 (.vObj [("error", .vStr "boom")])]) "a%20b" ⟨0, false⟩
      [("error", .vStr "boom")] (.vStr "boom") true rfl rfl rfl
    simpa using this
  · exact c7_error_payload.2 (run init [.evLoad "a", .evSockOpen 0 0,
      .evSockMessage 0 0 (.vStr "ok")]) "a" ⟨0, false⟩ (.vStr "ok") true rfl rfl rfl rfl

/-- C9: when a QueryEntry exists but the cached value is absent or falsy
(null, undefined, false, zero or the empty string), read behaves as if
nothing were cached: with suspend it throws the pending promise of the
entry captured at the start of the call, and without suspend it returns the
null placeholder, never the falsy payload. -/
theorem c9_falsy_value (s : ClientState) (p : String) (q : QueryEntry)
    (hq : mlookup p s.queryCache = some q)
    (hv : mlookup p s.valueCache = none ∨
      ∃ v, mlookup p s.valueCache = some v ∧ falsy v = true) :
    (read s p true).2 = .suspended q.cycle ∧ (read s p false).2 = .nullValue := by
  by_cases hl : q.lazilyRefetch
  · rcases hv with hv | ⟨v, hv, hf⟩
    · have hv2 : mlookup p (load s p).valueCache = none := by
        rw [load_valueCache]; exact hv
      constructor <;> simp [read, hq, hl, hv2]
    · have hv2 : mlookup p (load s p).valueCache = some v := by
        rw [load_valueCache]; exact hv
      constructor <;> simp [read, hq, hl, hv2, hf]
  · rcases hv with hv | ⟨v, hv, hf⟩
    · constructor <;> simp [read, hq, hl, hv]
    · constructor <;> simp [read, hq, hl, hv, hf]

theorem c9_falsy_value_witness :
    mlookup "a" (run init [.evLoad "a", .evSockOpen 0 0,
      .evSockMessage 0 0 (.vNum 0)]).valueCache = some (.vNum 0) ∧
    (read (run init [.evLoad "a", .evSockOpen 0 0,
      .evSockMessage 0 0 (.vNum 0)]) "a" true).2 = .suspended 0 ∧
    (read (run init [.evLoad "a", .evSockOpen 0 0,
      .evSockMessage 0 0 (.vNum 0)]) "a" false).2 = .nullValue := by
  refine ⟨rfl, ?_, ?_⟩
  · exact (c9_falsy_value (run init [.evLoad "a", .evSockOpen 0 0,
      .evSockMessage 0 0 (.vNum 0)]) "a" ⟨0, false⟩ rfl
      (Or.inr ⟨.vNum 0, rfl, rfl⟩)).1
  · exact (c9_falsy_value (run init [.evLoad "a", .evSockOpen 0 0,
      .evSockMessage 0 0 (.vNum 0)]) "a" ⟨0, false⟩ rfl
      (Or.inr ⟨.vNum 0, rfl, rfl⟩)).2

/-- C10: reading a stale path (lazilyRefetch true) with no cached value
triggers load, which installs a new QueryEntry whose cycle (and hence
deferred handle) is fresh; but the suspension thrown is the pending promise
of the old entry captured before the reload, not the new one. -/
theorem c10_stale_read_old_handle (s : ClientState) (p : String) (q : QueryEntry)
    (hq : mlookup p s.queryCache = some q) (hl : q.lazilyRefetch = true)
    (hv : mlookup p s.valueCache = none) (hcy : q.cycle < s.cycles.length) :
    (read s p true).2 = .suspended q.cycle ∧
      mlookup p (read s p true).1.queryCache = some ⟨s.cycles.length, false⟩ ∧
      q.cycle ≠ s.cycles.length := by
  have hv2 : mlookup p (load s p).valueCache = none := by
    rw [load_valueCache]; exact hv
  have hload : load s p = startCycle s p := by simp [load, hq, hl]
  refine ⟨?_, ?_, by omega⟩
  · simp [read, hq, hl, hv2]
  · have hqc : (read s p true).1 = load s p := by simp [read, hq, hl, hv2]
    rw [hqc, hload]
    exact mlookup_mset_self p _ s.queryCache

theorem c10_stale_read_old_handle_witness :
    mlookup "a" (run init [.evLoad "a", .evSockOpen 0 0,
      .evSockClose 0 0 1000]).queryCache = some ⟨0, true⟩ ∧
    (read (run init [.evLoad "a", .evSockOpen 0 0,
      .evSockClose 0 0 1000]) "a" true).2 = .suspended 0 ∧
    mlookup "a" (read (run init [.evLoad "a", .evSockOpen 0 0,
      .evSockClose 0 0 1000]) "a" true).1.queryCache = some ⟨1, false⟩ := by
  refine ⟨rfl, ?_, ?_⟩
  · exact (c10_stale_read_old_handle (run init [.evLoad "a", .evSockOpen 0 0,
      .evSockClose 0 0 1000]) "a" ⟨0, true⟩ rfl rfl rfl (by decide)).1
  · have := (c10_stale_read_old_handle (run init [.evLoad "a", .evSockOpen 0 0,
      .evSockClose 0 0 1000]) "a" ⟨0, true⟩ rfl rfl rfl (by decide)).2.1
    simpa using this

/-- C1 as stated is false: clearQuery marks the entry stale without closing
the open connection, so a subsequent load opens a second connection for the
same path. After load, open, clearQuery, load, open there are two distinct
cycles for path a, each holding an open socket. -/
theorem c1_counterexample :
    cyclePath (run init [.evLoad "a", .evSockOpen 0 0, .evClearQuery "a", .evLoad "a",
      .evSockOpen 1 0]) 0 = some "a" ∧
    cyclePath (run init [.evLoad "a", .evSockOpen 0 0, .evClearQuery "a", .evLoad "a",
      .evSockOpen 1 0]) 1 = some "a" ∧
    (nth (run init [.evLoad "a", .evSockOpen 0 0, .evClearQuery "a", .evLoad "a",
      .evSockOpen 1 0]).cycles 0).map Cycle.sockets = some [SockState.opened] ∧
    (nth (run init [.evLoad "a", .evSockOpen 0 0, .evClearQuery "a", .evLoad "a",
      .evSockOpen 1 0]).cycles 1).map Cycle.sockets = some [SockState.opened] :=
  ⟨rfl, rfl, rfl, rfl⟩

/-- C1 amended: in every state reachable without calling clearQuery, any two
non-closed sockets whose cycles serve the same path are the same socket of
the same cycle, so at most one connection per path is open; and the query
cache maps the path to a single entry, hence at most one current
pending-result handle. -/
theorem c1_at_most_one_connection (es : List Event) (hcq : cqFree es)
    (c1 i1 c2 i2 : Nat) (cy1 cy2 : Cycle) (st1 st2 : SockState)
    (h1 : nth (run init es).cycles c1 = some cy1)
    (hs1 : nth cy1.sockets i1 = some st1) (hl1 : st1 ≠ SockState.closed)
    (h2 : nth (run init es).cycles c2 = some cy2)
    (hs2 : nth cy2.sockets i2 = some st2) (hl2 : st2 ≠ SockState.closed)
    (hp : cy1.path = cy2.path) : c1 = c2 ∧ i1 = i2 := by
  have hB := invB_run invB_init hcq
  have ht1 : 1 ≤ cycleTokens (run init es) c1 := by
    have := countLive_pos hs1 hl1
    simp only [cycleTokens, liveAt, h1]
    omega
  have ht2 : 1 ≤ cycleTokens (run init es) c2 := by
    have := countLive_pos hs2 hl2
    simp only [cycleTokens, liveAt, h2]
    omega
  have hpc1 : cyclePath (run init es) c1 = some cy1.path := by simp [cyclePath, h1]
  have hpc2 : cyclePath (run init es) c2 = some cy1.path := by
    simp [cyclePath, h2]
    exact hp.symm
  have hcc := hB.2.1 c1 c2 cy1.path hpc1 hpc2 ht1 ht2
  subst hcc
  rw [h1] at h2
  cases h2
  have hcl : countLive cy1.sockets ≤ 1 := by
    have := hB.1.2 c1
    simp only [cycleTokens, liveAt, h1] at this
    omega
  exact ⟨rfl, countLive_unique hcl hs1 hl1 hs2 hl2⟩

theorem c1_at_most_one_connection_witness :
    cqFree [.evLoad "a", .evSockOpen 0 0] ∧
      ((0 : Nat) = 0 ∧ (0 : Nat) = 0) := by
  have hcq : cqFree [Event.evLoad "a", Event.evSockOpen 0 0] := cqFree_of_all rfl
  exact ⟨hcq, c1_at_most_one_connection [.evLoad "a", .evSockOpen 0 0] hcq
    0 0 0 0 ⟨"a", .pending, [], [.opened], none⟩ ⟨"a", .pending, [], [.opened], none⟩
    .opened .opened rfl rfl (by decide) rfl rfl (by decide) rfl⟩

/-- C2 as stated is false: after clearQuery marks an entry stale, a message
arriving on the still-open previous connection repopulates the value cache
while lazilyRefetch stays true. -/
theorem c2_counterexample :
    mlookup "a" (run init [.evLoad "a", .evSockOpen 0 0, .evClearQuery "a",
      .evSockMessage 0 0 (.vStr "x")]).queryCache = some ⟨0, true⟩ ∧
    mlookup "a" (run init [.evLoad "a", .evSockOpen 0 0, .evClearQuery "a",
      .evSockMessage 0 0 (.vStr "x")]).valueCache = some (.vStr "x") :=
  ⟨rfl, rfl⟩

/-- C2 amended: in every state reachable without calling clearQuery (so the
stale flag is only ever set by closure handling), an entry with
lazilyRefetch true implies the value cache holds nothing for that path; all
operations preserve this, and only a message delivered on a connection left
open across a clearQuery can break it. -/
theorem c2_stale_implies_cleared (es : List Event) (hcq : cqFree es) (p : String)
    (q : QueryEntry) (hq : mlookup p (run init es).queryCache = some q)
    (hl : q.lazilyRefetch = true) : mlookup p (run init es).valueCache = none :=
  ((invB_run invB_init hcq).2.2.1 p q hq hl).2

theorem c2_stale_implies_cleared_witness :
    mlookup "a" (run init [.evLoad "a", .evSockOpen 0 0,
      .evSockClose 0 0 1000]).queryCache = some ⟨0, true⟩ ∧
    mlookup "a" (run init [.evLoad "a", .evSockOpen 0 0,
      .evSockClose 0 0 1000]).valueCache = none := by
  have hcq : cqFree [Event.evLoad "a", Event.evSockOpen 0 0,
      Event.evSockClose 0 0 1000] := cqFree_of_all rfl
  exact ⟨rfl, c2_stale_implies_cleared [.evLoad "a", .evSockOpen 0 0,
    .evSockClose 0 0 1000] hcq "a" ⟨0, true⟩ rfl rfl⟩

/-- C4: a socket closure with code 1006 schedules exactly one reconnection
timer, with a 1000 ms delay, for the socket that closed; in any reachable
state a pending reconnection timer for a cycle implies every socket of that
cycle is closed (so the delayed attempt only runs while the connection is
closed); and each cycle never has two non-closed sockets, so the retry
never creates a duplicate connection. -/
theorem c4_reconnect_single :
    (∀ s c i (cy : Cycle) st, nth s.cycles c = some cy → nth cy.sockets i = some st →
      st ≠ SockState.closed →
      (step s (.evSockClose c i 1006)).timers =
        s.timers ++ [⟨s.nextTimerId, .reconnect c i, 1000⟩]) ∧
    (∀ s, Reachable s → ∀ t ∈ s.timers, ∀ c i, t.kind = .reconnect c i →
      liveAt s c = 0) ∧
    (∀ s, Reachable s → ∀ c (cy : Cycle) i j sti stj, nth s.cycles c = some cy →
      nth cy.sockets i = some sti → sti ≠ SockState.closed →
      nth cy.sockets j = some stj → stj ≠ SockState.closed → i = j) := by
  refine ⟨?_, ?_, ?_⟩
  · intro s c i cy st hc hi hst
    simp [step, sockCloseEv, hc, hi, hst, setCycle]
  · intro s hr t hmem c i hk
    have hA := invA_reachable hr
    have hpos : 1 ≤ countRecon c s.timers :=
      countRecon_pos_of_mem hmem (by simp [isReconFor, hk])
    have := hA.2 c
    simp only [cycleTokens] at this
    omega
  · intro s hr c cy i j sti stj hc hi hsti hj hstj
    have hA := invA_reachable hr
    have htok := hA.2 c
    have hcl : countLive cy.sockets ≤ 1 := by
      simp only [cycleTokens, liveAt, hc] at htok
      omega
    exact countLive_unique hcl hi hsti hj hstj

theorem c4_reconnect_single_witness :
    (step (run init [.evLoad "a", .evSockOpen 0 0]) (.evSockClose 0 0 1006)).timers =
      [⟨0, .reconnect 0 0, 1000⟩] ∧
    liveAt (run init [.evLoad "a", .evSockOpen 0 0, .evSockClose 0 0 1006]) 0 = 0 ∧
    (0 : Nat) = 0 := by
  refine ⟨?_, ?_, ?_⟩
  · have := c4_reconnect_single.1 (run init [.evLoad "a", .evSockOpen 0 0]) 0 0
      ⟨"a", .pending, [], [.opened], none⟩ .opened rfl rfl (by decide)
    simpa using this
  · exact c4_reconnect_single.2.1 (run init [.evLoad "a", .evSockOpen 0 0,
      .evSockClose 0 0 1006]) ⟨[.evLoad "a", .evSockOpen 0 0, .evSockClose 0 0 1006], rfl⟩
      ⟨0, .reconnect 0 0, 1000⟩ (by decide) 0 0 rfl
  · exact c4_reconnect_single.2.2 (run init [.evLoad "a", .evSockOpen 0 0])
      ⟨[.evLoad "a", .evSockOpen 0 0], rfl⟩ 0 ⟨"a", .pending, [], [.opened], none⟩
      0 0 .opened .opened rfl rfl (by decide) rfl (by decide)

/-- C5 as stated is false: a closure with code 1006 takes the silent
reconnection path and touches neither cache, leaving the cached value in
place and lazilyRefetch false. -/
theorem c5_counterexample :
    mlookup "a" (run init [.evLoad "a", .evSockOpen 0 0, .evSockMessage 0 0 (.vStr "x"),
      .evSockClose 0 0 1006]).valueCache = some (.vStr "x") ∧
    mlookup "a" (run init [.evLoad "a", .evSockOpen 0 0, .evSockMessage 0 0 (.vStr "x"),
      .evSockClose 0 0 1006]).queryCache = some ⟨0, false⟩ :=
  ⟨rfl, rfl⟩

/-- C5 amended: on any closure with a code other than 1006 (the onClose
path), when an entry exists for the closing cycle's path, the value cache
entry is deleted and the query entry is replaced by one with lazilyRefetch
true. -/
theorem c5_on_close (s : ClientState) (c i code : Nat) (cy : Cycle) (st : SockState)
    (q : QueryEntry) (hc : nth s.cycles c = some cy) (hi : nth cy.sockets i = some st)
    (hst : st ≠ SockState.closed) (hcode : code ≠ 1006)
    (hq : mlookup cy.path s.queryCache = some q) :
    mlookup cy.path (step s (.evSockClose c i code)).valueCache = none ∧
    mlookup cy.path (step s (.evSockClose c i code)).queryCache =
      some ⟨q.cycle, true⟩ := by
  constructor
  · simp [step, sockCloseEv, hc, hi, hst, hcode, onClose, setCycle,
      nth_setNth_self (nth_lt_length hc), hq, mlookup_mdel_self]
  · simp [step, sockCloseEv, hc, hi, hst, hcode, onClose, setCycle,
      nth_setNth_self (nth_lt_length hc), hq, mlookup_mset_self]

/-- C8 as stated is false: subscribe does not cancel a pending teardown
timer (the clearTimeout call lives in the unsubscribe closure, not in
subscribe). After load, subscribe, unsubscribe a cleanup timer is pending,
and a further subscribe leaves it pending. -/
theorem c8_counterexample :
    (run init [.evLoad "a", .evSubscribe "a" 1, .evUnsubscribe 0 1]).timers =
      [⟨0, .cleanup 0, 9999⟩] ∧
    (step (run init [.evLoad "a", .evSubscribe "a" 1, .evUnsubscribe 0 1])
      (.evSubscribe "a" 2)).timers = [⟨0, .cleanup 0, 9999⟩] :=
  ⟨rfl, rfl⟩

/-- C8 amended: subscribe appends the listener and leaves the pending
timers untouched; each unsubscribe clears the cycle's previously recorded
cleanup timeout, removes the listener, and always schedules a fresh cleanup
timer with a 9999 ms (about ten seconds) delay; when a cleanup timer fires
with a non-empty subscriber list nothing happens and the connection stays
open, and when it fires with an empty list ws.close() moves the handle's
socket to closing. Re-subscribing before the timer fires therefore keeps
the connection open through the emptiness re-check, not through timer
cancellation. -/
theorem c8_teardown_behavior :
    (∀ s p l (q : QueryEntry) (cy : Cycle), mlookup p s.queryCache = some q →
      nth s.cycles q.cycle = some cy →
      (subscribeOp s p l).1.timers = s.timers ∧
      nth (subscribeOp s p l).1.cycles q.cycle =
        some { cy with subs := cy.subs ++ [l] }) ∧
    (∀ s c l (cy : Cycle) tid, (c, l) ∈ s.issuedUnsubs → nth s.cycles c = some cy →
      cy.cleanupTimer = some tid →
      (unsubscribeOp s c l).timers =
        s.timers.filter (fun u => !(u.id == tid)) ++
          [⟨s.nextTimerId, .cleanup c, 9999⟩] ∧
      nth (unsubscribeOp s c l).cycles c =
        some { cy with subs := removeListener l cy.subs,
                       cleanupTimer := some s.nextTimerId }) ∧
    (∀ s tid (t : PendingTimer) c (cy : Cycle),
      s.timers.find? (fun u => u.id == tid) = some t → t.kind = .cleanup c →
      nth s.cycles c = some cy → cy.subs ≠ [] →
      (fireTimer s tid).cycles = s.cycles) ∧
    (∀ s tid (t : PendingTimer) c (cy : Cycle),
      s.timers.find? (fun u => u.id == tid) = some t → t.kind = .cleanup c →
      nth s.cycles c = some cy → cy.subs = [] →
      nth cy.sockets 0 = some SockState.opened →
      nth (fireTimer s tid).cycles c =
        some { cy with sockets := setNth cy.sockets 0 SockState.closing }) := by
  refine ⟨?_, ?_, ?_, ?_⟩
  · intro s p l q cy hq hc
    constructor
    · simp [subscribeOp, hq, hc, setCycle]
    · simp [subscribeOp, hq, hc, setCycle, nth_setNth_self (nth_lt_length hc)]
  · intro s c l cy tid hm hc hct
    constructor
    · simp [unsubscribeOp, hm, hc, hct]
    · simp [unsubscribeOp, hm, hc, hct, nth_setNth_self (nth_lt_length hc)]
  · intro s tid t c cy hf hk hc hsub
    simp [fireTimer, hf, hk, hc, hsub]
  · intro s tid t c cy hf hk hc hsub hsock
    simp [fireTimer, hf, hk, hc, hsub, wsClose, hsock, setCycle,
      nth_setNth_self (nth_lt_length hc)]

theorem c8_teardown_behavior_witness :
    ((subscribeOp (run init [.evLoad "a"]) "a" 5).1.timers = [] ∧
      nth (subscribeOp (run init [.evLoad "a"]) "a" 5).1.cycles 0 =
        some ⟨"a", .pending, [5], [.connecting], none⟩) ∧
    ((unsubscribeOp (run init [.evLoad "a", .evSubscribe "a" 1, .evUnsubscribe 0 1])
        0 1).timers = [⟨1, .cleanup 0, 9999⟩] ∧
      nth (unsubscribeOp (run init [.evLoad "a", .evSubscribe "a" 1, .evUnsubscribe 0 1])
        0 1).cycles 0 = some ⟨"a", .pending, [], [.connecting], some 1⟩) ∧
    (fireTimer (run init [.evLoad "a", .evSubscribe "a" 1, .evUnsubscribe 0 1,
      .evSubscribe "a" 2]) 0).cycles =
      (run init [.evLoad "a", .evSubscribe "a" 1, .evUnsubscribe 0 1,
        .evSubscribe "a" 2]).cycles ∧
    nth (fireTimer (run init [.evLoad "a", .evSockOpen 0 0, .evSubscribe "a" 1,
      .evUnsubscribe 0 1]) 0).cycles 0 =
      some ⟨"a", .pending, [], [.closing], some 0⟩ := by
  refine ⟨⟨?_, ?_⟩, ⟨?_, ?_⟩, ?_, ?_⟩
  · exact (c8_teardown_behavior.1 (run init [.evLoad "a"]) "a" 5 ⟨0, false⟩
      ⟨"a", .pending, [], [.connecting], none⟩ rfl rfl).1
  · have := (c8_teardown_behavior.1 (run init [.evLoad "a"]) "a" 5 ⟨0, false⟩
      ⟨"a", .pending, [], [.connecting], none⟩ rfl rfl).2
    simpa using this
  · have := (c8_teardown_behavior.2.1
      (run init [.evLoad "a", .evSubscribe "a" 1, .evUnsubscribe 0 1]) 0 1
      ⟨"a", .pending, [], [.connecting], some 0⟩ 0 (by decide) rfl rfl).1
    simpa using this
  · have := (c8_teardown_behavior.2.1
      (run init [.evLoad "a", .evSubscribe "a" 1, .evUnsubscribe 0 1]) 0 1
      ⟨"a", .pending, [], [.connecting], some 0⟩ 0 (by decide) rfl rfl).2
    simpa using this
  · exact c8_teardown_behavior.2.2.1
      (run init [.evLoad "a", .evSubscribe "a" 1, .evUnsubscribe 0 1, .evSubscribe "a" 2])
      0 ⟨0, .cleanup 0, 9999⟩ 0 ⟨"a", .pending, [2], [.connecting], some 0⟩
      rfl rfl rfl (by decide)
  · have := c8_teardown_behavior.2.2.2
      (run init [.evLoad "a", .evSockOpen 0 0, .evSubscribe "a" 1, .evUnsubscribe 0 1])
      0 ⟨0, .cleanup 0, 9999⟩ 0 ⟨"a", .pending, [], [.opened], some 0⟩
      rfl rfl rfl rfl rfl
    simpa using this

theorem c5_on_close_witness :
    mlookup "a" (step (run init [.evLoad "a", .evSockOpen 0 0,
      .evSockMessage 0 0 (.vStr "x")]) (.evSockClose 0 0 1000)).valueCache = none ∧
    mlookup "a" (step (run init [.evLoad "a", .evSockOpen 0 0,
      .evSockMessage 0 0 (.vStr "x")]) (.evSockClose 0 0 1000)).queryCache =
      some ⟨0, true⟩ := by
  have := c5_on_close (run init [.evLoad "a", .evSockOpen 0 0,
    .evSockMessage 0 0 (.vStr "x")]) 0 0 1000
    ⟨"a", .resolvedD, [], [.opened], none⟩ .opened ⟨0, false⟩ rfl rfl
    (by decide) (by decide) rfl
  simpa using this

end Websocks

